import Mathlib

/-!
Verification of the s6ui S3-browser core against its specification.

The definitions below are a shallow embedding of the Rust sources:
`src/rust/src/streaming_preview.rs`, `src/rust/src/aws/s3_backend.rs`,
`src/rust/src/aws/signer.rs` and `src/rust/src/model.rs`.  Bytes are
modelled as `Nat` (the values of `u8`), byte strings as `List Nat`,
Rust `String`s as Lean `String`s, `f64` frecency scores as `ℚ`
(all scores reachable by the code are sums of `1.0` multiplied by
`4.0 / 2.0 / 1.0 / 0.5`, which `f64` represents and compares exactly),
and `i64` timestamps as `ℤ`.  Fallible operations (Rust panics such as
unsigned-integer underflow) are modelled with `Option`.
-/

namespace S6ui

/-! ## Streaming preview (`streaming_preview.rs`) -/

/-- The `StreamTransform` trait: a decompression transform over an opaque
state type `σ`.  `transform` consumes raw downloaded bytes and returns the
new state plus the decompressed output; `flush` emits any remaining output. -/
structure TransformImpl (σ : Type) where
  transform : σ → List Nat → σ × List Nat
  flush : σ → σ × List Nat

/-- `PassThroughTransform`: no transformation, `flush` yields nothing. -/
def passThroughTransform : TransformImpl Unit where
  transform := fun s data => (s, data)
  flush := fun s => (s, [])

/-- State of the buffered transforms (`GzipTransform` and `ZstdTransform`):
all compressed bytes seen so far, the decompressed high-water mark, and
the error flag. -/
structure BufferedState where
  buffer : List Nat
  emitted : Nat
  error : Bool
  deriving DecidableEq

/-- The shared buffered transform logic (`impl_buffered_transform!`),
parameterised by the external decompressor `dec` (flate2 / zstd): append
the raw bytes, re-decompress everything, emit only the bytes beyond the
previously-emitted high-water mark. -/
def bufferedTransform (dec : List Nat → List Nat) : TransformImpl BufferedState where
  transform := fun s data =>
    if s.error ∨ data.isEmpty then (s, [])
    else
      let s1 : BufferedState := { s with buffer := s.buffer ++ data }
      let all := dec s1.buffer
      if s1.emitted < all.length then
        ({ s1 with emitted := all.length }, all.drop s1.emitted)
      else (s1, [])
  flush := fun s =>
    if s.error then (s, [])
    else
      let all := dec s.buffer
      if s.emitted < all.length then
        ({ s with emitted := all.length }, all.drop s.emitted)
      else (s, [])

/-- The fields of `StreamingInner` behind the mutex. -/
structure StreamingInner (σ : Type) where
  bytes_downloaded : Nat
  bytes_written : Nat
  complete : Bool
  line_offsets : List Nat
  transform : σ
  deriving DecidableEq

/-- `StreamingFilePreview`: `has_file` records whether the scratch file
opened successfully (`self.file.is_some()`), `file_data` models the
scratch-file contents. -/
structure StreamingFilePreview (σ : Type) where
  bucket : String
  key : String
  has_file : Bool
  file_data : List Nat
  total_source_size : Nat
  inner : StreamingInner σ
  deriving DecidableEq

/-- The offsets pushed by `index_newlines` for `data` written at absolute
offset `base`: for each `0x0A` at index `i` of `data`, the value
`base + i + 1`. -/
def newlinePositions : List Nat → Nat → List Nat
  | [], _ => []
  | b :: rest, base =>
      (if b = 10 then [base + 1] else []) ++ newlinePositions rest (base + 1)

/-- `StreamingFilePreview::index_newlines`: push the newline offsets of the
freshly written bytes onto `line_offsets`. -/
def index_newlines (data : List Nat) (base : Nat) (lo : List Nat) : List Nat :=
  lo ++ newlinePositions data base

/-- The write-and-index step shared by the constructor, `append_chunk` and
`finish_stream_inner`: if the transform produced output and the scratch
file exists, append the output to the file at `bytes_written`, index its
newlines, and advance `bytes_written`. -/
def writeStep (has_file : Bool) (fd : List Nat) (inner : StreamingInner σ)
    (out : List Nat) : List Nat × StreamingInner σ :=
  if out.isEmpty then (fd, inner)
  else if has_file then
    (fd ++ out,
     { inner with
        line_offsets := index_newlines out inner.bytes_written inner.line_offsets,
        bytes_written := inner.bytes_written + out.length })
  else (fd, inner)

/-- `StreamingFilePreview::finish_stream_inner`: flush the transform, write
and index the remaining output, mark complete. -/
def finishStream (impl : TransformImpl σ) (has_file : Bool) (fd : List Nat)
    (inner : StreamingInner σ) : List Nat × StreamingInner σ :=
  if inner.complete then (fd, inner)
  else
    let p := impl.flush inner.transform
    let inner1 : StreamingInner σ := { inner with transform := p.1 }
    let r := writeStep has_file fd inner1 p.2
    (r.1, { r.2 with complete := true })

/-- `StreamingFilePreview::new`: construct with `line_offsets = [0]`, run
the transform over the initial data, write and index it, and finish the
stream if the initial data already covers the total source size. -/
def StreamingFilePreview.new (impl : TransformImpl σ) (bucket key : String)
    (has_file : Bool) (t0 : σ) (initial_data : List Nat)
    (total_file_size : Nat) : StreamingFilePreview σ :=
  let inner0 : StreamingInner σ :=
    { bytes_downloaded := 0, bytes_written := 0, complete := false,
      line_offsets := [0], transform := t0 }
  if initial_data.isEmpty then
    { bucket := bucket, key := key, has_file := has_file, file_data := [],
      total_source_size := total_file_size, inner := inner0 }
  else
    let p := impl.transform t0 initial_data
    let inner1 : StreamingInner σ := { inner0 with transform := p.1 }
    let r := writeStep has_file [] inner1 p.2
    let inner2 : StreamingInner σ :=
      { r.2 with bytes_downloaded := initial_data.length }
    let r2 :=
      if total_file_size ≤ inner2.bytes_downloaded then
        finishStream impl has_file r.1 inner2
      else (r.1, inner2)
    { bucket := bucket, key := key, has_file := has_file, file_data := r2.1,
      total_source_size := total_file_size, inner := r2.2 }

/-- The tail of `append_chunk` after the write of transformed output:
advance `bytes_downloaded` by the raw chunk length and, once the full
source has arrived, flush the transform inline, write and index the
remainder, and mark complete. -/
def appendChunkRest (impl : TransformImpl σ) (has_file : Bool)
    (total dlen : Nat) (fd : List Nat) (inner : StreamingInner σ) :
    List Nat × StreamingInner σ :=
  let inner2 : StreamingInner σ :=
    { inner with bytes_downloaded := inner.bytes_downloaded + dlen }
  if total ≤ inner2.bytes_downloaded then
    if ¬ inner2.complete then
      let f := impl.flush inner2.transform
      let inner3 : StreamingInner σ := { inner2 with transform := f.1 }
      let r2 := writeStep has_file fd inner3 f.2
      (r2.1, { r2.2 with complete := true })
    else (fd, inner2)
  else (fd, inner2)

/-- The in-order branch of `append_chunk`: transform, write and index the
output, then `appendChunkRest`. -/
def appendChunkGo (impl : TransformImpl σ) (p : StreamingFilePreview σ)
    (data : List Nat) : StreamingFilePreview σ :=
  let t := impl.transform p.inner.transform data
  let r := writeStep p.has_file p.file_data { p.inner with transform := t.1 } t.2
  let r2 := appendChunkRest impl p.has_file p.total_source_size data.length r.1 r.2
  { p with file_data := r2.1, inner := r2.2 }

/-- `StreamingFilePreview::append_chunk`: no-op without a scratch file or on
an out-of-order offset; otherwise transform, write, index, advance
`bytes_downloaded`, and finish inline once the full source has arrived. -/
def StreamingFilePreview.append_chunk (impl : TransformImpl σ)
    (p : StreamingFilePreview σ) (data : List Nat) (offset : Nat) :
    StreamingFilePreview σ :=
  if ¬ p.has_file then p
  else if offset ≠ p.inner.bytes_downloaded then p
  else appendChunkGo impl p data

/-- Apply a sequence of `append_chunk` calls. -/
def applyChunks (impl : TransformImpl σ) (p : StreamingFilePreview σ)
    (chunks : List (List Nat × Nat)) : StreamingFilePreview σ :=
  chunks.foldl (fun q c => q.append_chunk impl c.1 c.2) p

/-- The line-index invariant claimed by the spec: the index starts at 0, is
strictly increasing, and every entry is at most `bytes_written`. -/
def LineIndexInv (lo : List Nat) (bw : Nat) : Prop :=
  lo.head? = some 0 ∧ lo.Pairwise (· < ·) ∧ ∀ x ∈ lo, x ≤ bw

theorem newlinePositions_mem (data : List Nat) (base : Nat) :
    ∀ x ∈ newlinePositions data base, base < x ∧ x ≤ base + data.length := by
  induction data generalizing base with
  | nil => intro x hx; simp [newlinePositions] at hx
  | cons b rest ih =>
      intro x hx
      simp only [newlinePositions, List.mem_append] at hx
      rcases hx with hx1 | hx1
      · have hxeq : x = base + 1 := by
          by_cases hb : b = 10
          · simpa [hb] using hx1
          · simp [hb] at hx1
        subst hxeq
        simp only [List.length_cons]
        omega
      · have := ih (base + 1) x hx1
        simp only [List.length_cons]
        omega

theorem newlinePositions_pairwise (data : List Nat) (base : Nat) :
    (newlinePositions data base).Pairwise (· < ·) := by
  induction data generalizing base with
  | nil => simp [newlinePositions]
  | cons b rest ih =>
      by_cases hb : b = 10
      · simp only [newlinePositions, hb, if_pos rfl, List.singleton_append]
        refine List.pairwise_cons.mpr ⟨?_, ih (base + 1)⟩
        intro x hx
        exact (newlinePositions_mem rest (base + 1) x hx).1
      · simp only [newlinePositions, if_neg hb, List.nil_append]
        exact ih (base + 1)

theorem lineIndexInv_index_newlines {lo : List Nat} {bw : Nat}
    (h : LineIndexInv lo bw) (data : List Nat) :
    LineIndexInv (index_newlines data bw lo) (bw + data.length) := by
  obtain ⟨h0, hp, hb⟩ := h
  refine ⟨?_, ?_, ?_⟩
  · unfold index_newlines
    cases lo with
    | nil => simp at h0
    | cons a l => simpa using h0
  · unfold index_newlines
    refine List.pairwise_append.mpr ⟨hp, newlinePositions_pairwise data bw, ?_⟩
    intro x hx y hy
    have hxle := hb x hx
    have := (newlinePositions_mem data bw y hy).1
    omega
  · intro x hx
    unfold index_newlines at hx
    rcases List.mem_append.mp hx with hx | hx
    · have := hb x hx; omega
    · exact (newlinePositions_mem data bw x hx).2

theorem lineIndexInv_writeStep {σ : Type} (has_file : Bool) (fd : List Nat)
    (inner : StreamingInner σ) (out : List Nat)
    (h : LineIndexInv inner.line_offsets inner.bytes_written) :
    LineIndexInv (writeStep has_file fd inner out).2.line_offsets
      (writeStep has_file fd inner out).2.bytes_written := by
  unfold writeStep
  by_cases he : out.isEmpty
  · simpa [he] using h
  · by_cases hf : has_file
    · simp only [he, hf, if_neg, if_pos, Bool.false_eq_true, ite_false, ite_true]
      exact lineIndexInv_index_newlines h out
    · simpa [he, hf] using h

theorem lineIndexInv_finishStream {σ : Type} (impl : TransformImpl σ)
    (has_file : Bool) (fd : List Nat) (inner : StreamingInner σ)
    (h : LineIndexInv inner.line_offsets inner.bytes_written) :
    LineIndexInv (finishStream impl has_file fd inner).2.line_offsets
      (finishStream impl has_file fd inner).2.bytes_written := by
  unfold finishStream
  by_cases hc : inner.complete
  · simpa [hc] using h
  · simp only [hc, Bool.false_eq_true, ite_false, ite_true, if_neg, if_pos]
    exact lineIndexInv_writeStep has_file fd _ _ h

theorem lineIndexInv_new {σ : Type} (impl : TransformImpl σ)
    (bucket key : String) (has_file : Bool) (t0 : σ) (initial_data : List Nat)
    (total_file_size : Nat) :
    LineIndexInv
      (StreamingFilePreview.new impl bucket key has_file t0 initial_data
        total_file_size).inner.line_offsets
      (StreamingFilePreview.new impl bucket key has_file t0 initial_data
        total_file_size).inner.bytes_written := by
  unfold StreamingFilePreview.new
  have hbase : LineIndexInv [0] 0 := by
    refine ⟨rfl, ?_, ?_⟩
    · simp
    · intro x hx; simp at hx; omega
  by_cases he : initial_data.isEmpty
  · simpa [he] using hbase
  · simp only [he, Bool.false_eq_true, ite_false, ite_true, if_neg, if_pos]
    have h1 := lineIndexInv_writeStep has_file []
      ({ bytes_downloaded := 0, bytes_written := 0, complete := false,
         line_offsets := [0], transform := (impl.transform t0 initial_data).1 } :
        StreamingInner σ) (impl.transform t0 initial_data).2 hbase
    by_cases hd : total_file_size ≤ initial_data.length
    · simp only [hd, ite_true, if_pos]
      exact lineIndexInv_finishStream impl has_file _ _ h1
    · simpa [hd] using h1

theorem lineIndexInv_appendChunkRest {σ : Type} (impl : TransformImpl σ)
    (has_file : Bool) (total dlen : Nat) (fd : List Nat)
    (inner : StreamingInner σ)
    (h : LineIndexInv inner.line_offsets inner.bytes_written) :
    LineIndexInv (appendChunkRest impl has_file total dlen fd inner).2.line_offsets
      (appendChunkRest impl has_file total dlen fd inner).2.bytes_written := by
  unfold appendChunkRest
  by_cases hd : total ≤ inner.bytes_downloaded + dlen
  · by_cases hc : inner.complete
    · simpa [hd, hc] using h
    · simp only [hd, hc, not_false_eq_true, Bool.false_eq_true, ite_false,
        ite_true, if_neg, if_pos]
      exact lineIndexInv_writeStep has_file fd _ _ h
  · simpa [hd] using h

theorem lineIndexInv_append_chunk {σ : Type} (impl : TransformImpl σ)
    (p : StreamingFilePreview σ) (data : List Nat) (offset : Nat)
    (h : LineIndexInv p.inner.line_offsets p.inner.bytes_written) :
    LineIndexInv (p.append_chunk impl data offset).inner.line_offsets
      (p.append_chunk impl data offset).inner.bytes_written := by
  unfold StreamingFilePreview.append_chunk
  split
  · exact h
  · split
    · exact h
    · exact lineIndexInv_appendChunkRest impl p.has_file p.total_source_size
        data.length _ _ (lineIndexInv_writeStep p.has_file p.file_data _ _ h)

/-- C4: for every transform, every construction-time initial payload and
every sequence of `append_chunk` calls (in-order or not), the line-offset
index starts at 0, is strictly increasing, and stays bounded by
`bytes_written`. -/
theorem c4_line_index_invariant {σ : Type} (impl : TransformImpl σ)
    (bucket key : String) (has_file : Bool) (t0 : σ) (initial_data : List Nat)
    (total_file_size : Nat) (chunks : List (List Nat × Nat)) :
    LineIndexInv
      (applyChunks impl
        (StreamingFilePreview.new impl bucket key has_file t0 initial_data
          total_file_size) chunks).inner.line_offsets
      (applyChunks impl
        (StreamingFilePreview.new impl bucket key has_file t0 initial_data
          total_file_size) chunks).inner.bytes_written := by
  have hstart := lineIndexInv_new impl bucket key has_file t0 initial_data
    total_file_size
  unfold applyChunks
  generalize StreamingFilePreview.new impl bucket key has_file t0 initial_data
    total_file_size = p at hstart ⊢
  induction chunks generalizing p with
  | nil => simpa using hstart
  | cons c rest ih =>
      simp only [List.foldl_cons]
      exact ih _ (lineIndexInv_append_chunk impl p c.1 c.2 hstart)

/-- Claim C10: an `append_chunk` call whose offset differs from the current
`bytes_downloaded` is rejected and leaves the whole preview unchanged —
`bytes_downloaded`, `bytes_written`, the line-offset index, the completion
status and the scratch-file contents included. -/
theorem c10_append_chunk_offset_mismatch_noop {σ : Type}
    (impl : TransformImpl σ) (p : StreamingFilePreview σ) (data : List Nat)
    (offset : Nat) (h : offset ≠ p.inner.bytes_downloaded) :
    p.append_chunk impl data offset = p := by
  unfold StreamingFilePreview.append_chunk
  by_cases hf : ¬ p.has_file
  · simp [hf]
  · simp [hf, h]

/-- Witness for C10 at a concrete preview: after constructing a preview
from two initial bytes, an append at the wrong offset 7 is a no-op. -/
theorem c10_append_chunk_offset_mismatch_noop_witness :
    (7 : Nat) ≠ (StreamingFilePreview.new passThroughTransform "b" "k" true ()
        [97, 10] 5).inner.bytes_downloaded ∧
    (StreamingFilePreview.new passThroughTransform "b" "k" true ()
        [97, 10] 5).append_chunk passThroughTransform [98] 7 =
      StreamingFilePreview.new passThroughTransform "b" "k" true () [97, 10] 5 :=
  ⟨by decide,
   c10_append_chunk_offset_mismatch_noop passThroughTransform _ [98] 7 (by decide)⟩

/-! ## String helpers

Rust `str` routines used by the backend, modelled over `List Char`.
Rust indexes by UTF-8 bytes while these helpers index by characters; for
the tag-substring operations below the two produce the same extracted
*content* on any input (indices are only ever used consistently on the
same string), and are byte-for-byte identical on ASCII data. -/

/-- `str::find` for a substring `needle` (first index, `Some(0)` for the
empty needle). -/
def findSubList (needle : List Char) : List Char → Option Nat
  | [] => if needle.isEmpty then some 0 else none
  | c :: rest =>
      if needle.isPrefixOf (c :: rest) then some 0
      else (findSubList needle rest).map (· + 1)

def strFind? (hay needle : String) : Option Nat :=
  findSubList needle.toList hay.toList

def strLen (s : String) : Nat := s.toList.length

def strDrop (s : String) (n : Nat) : String := ⟨s.toList.drop n⟩

def strTake (s : String) (n : Nat) : String := ⟨s.toList.take n⟩

/-- `s[a..b]`. -/
def strSlice (s : String) (a b : Nat) : String := ⟨(s.toList.take b).drop a⟩

def strStartsWith (s pre : String) : Bool := pre.toList.isPrefixOf s.toList

def strContainsChar (s : String) (c : Char) : Bool := s.toList.contains c

/-- `str::rfind` for a single character: the last index at which it occurs. -/
def lastIdxOf (c : Char) : List Char → Option Nat
  | [] => none
  | x :: rest =>
      match lastIdxOf c rest with
      | some i => some (i + 1)
      | none => if x = c then some 0 else none

def strRfind? (s : String) (c : Char) : Option Nat := lastIdxOf c s.toList

def strEndsWithChar (s : String) (c : Char) : Bool :=
  match s.toList.getLast? with
  | some x => x = c
  | none => false

/-- `to_lowercase` (ASCII-faithful; the bucket names fed to it are ASCII). -/
def strToLower (s : String) : String := ⟨s.toList.map Char.toLower⟩

/-! ## XML tag extraction and S3 XML parsing (`s3_backend.rs`) -/

/-- `extract_tag`: the text between the first `<tag>` and the following
`</tag>`, or `""`. -/
def extract_tag (xml tag : String) : String :=
  let op := "<" ++ tag ++ ">"
  let cl := "</" ++ tag ++ ">"
  match strFind? xml op with
  | none => ""
  | some start =>
      let contentStart := start + strLen op
      match strFind? (strDrop xml contentStart) cl with
      | none => ""
      | some e => strSlice xml contentStart (contentStart + e)

/-- `extract_error`: `"Code: Message"` when a `<Code>` tag is present, else
`""`. -/
def extract_error (xml : String) : String :=
  let code := extract_tag xml "Code"
  let message := extract_tag xml "Message"
  if code ≠ "" then code ++ ": " ++ message else ""

/-- Second half of `extract_region_from_endpoint`: take the region segment
starting at `region_start`, up to the next `.`, requiring a dash. -/
def regionFromRest (rest : String) : String :=
  match strFind? rest "." with
  | some pos =>
      if 0 < pos then
        let region := strTake rest pos
        if strContainsChar region '-' then region else ""
      else ""
  | none => ""

/-- `extract_region_from_endpoint`: parse the region out of an S3-style
endpoint host such as `bucket.s3.eu-west-1.amazonaws.com`. -/
def extract_region_from_endpoint (endpoint : String) : String :=
  if endpoint = "s3.amazonaws.com" then ""
  else
    match strFind? endpoint "s3." with
    | some pos => regionFromRest (strDrop endpoint (pos + 3))
    | none =>
        match strFind? endpoint "s3-" with
        | some pos => regionFromRest (strDrop endpoint (pos + 3))
        | none => ""

/-- `KNOWN_REGIONS`. -/
def KNOWN_REGIONS : List String :=
  ["us-east-1", "us-east-2", "us-west-1", "us-west-2", "eu-west-1",
   "eu-west-2", "eu-west-3", "eu-central-1", "eu-north-1", "ap-southeast-1",
   "ap-southeast-2", "ap-northeast-1", "ap-northeast-2", "ap-south-1",
   "ca-central-1", "sa-east-1"]

/-- First known region occurring as a substring of `s`, or `""`. -/
def firstKnownRegionIn (s : String) : String :=
  match KNOWN_REGIONS.find? (fun r => (strFind? s r).isSome) with
  | some r => r
  | none => ""

/-- Step 3 of the redirect-region resolution: fall back to `us-east-1`
when the first two steps produced nothing. -/
def fallbackRegion (r2 : String) : String :=
  if r2 = "" then "us-east-1" else r2

/-- The `correct_region` computed inside `resolve_redirect_region`: first
from the `<Endpoint>` tag, else from a known-region substring of the
lowercased bucket name, else `us-east-1`. -/
def redirectRegionCandidate (body bucket : String) : String :=
  let correct_endpoint := extract_tag body "Endpoint"
  let r1 :=
    if correct_endpoint ≠ "" then extract_region_from_endpoint correct_endpoint
    else ""
  let r2 := if r1 = "" then firstKnownRegionIn (strToLower bucket) else r1
  fallbackRegion r2

/-- `resolve_redirect_region`: the candidate, provided it is non-empty and
differs from the current region. -/
def resolve_redirect_region (body bucket current : String) : Option String :=
  let c := redirectRegionCandidate body bucket
  if c ≠ "" ∧ c ≠ current then some c else none

/-- `S3Bucket` of `events.rs`. -/
structure S3Bucket where
  name : String
  creation_date : String
  deriving DecidableEq

/-- `S3Object` of `events.rs` (`size` is an `i64`). -/
structure S3Object where
  key : String
  display_name : String
  size : Int
  last_modified : String
  is_folder : Bool
  deriving DecidableEq

/-- The scan loop shared by the `<CommonPrefixes>` and `<Contents>` parsers:
repeatedly find `op … cl` and return each block `op ++ inner` (the source
slices `xml[abs_start..abs_end]` with `abs_end` just before the close tag),
resuming after the close tag.  `fuel` bounds the iteration count; each
step drops at least the opening tag, so `s.length` fuel is always enough. -/
def scanBlocks (op cl : List Char) : Nat → List Char → List (List Char)
  | 0, _ => []
  | fuel + 1, s =>
      match findSubList op s with
      | none => []
      | some start =>
          let after := (s.drop start).drop op.length
          match findSubList cl after with
          | none => []
          | some e =>
              ((s.drop start).take (op.length + e)) ::
                scanBlocks op cl fuel (after.drop (e + cl.length))

/-- Parse one `<CommonPrefixes>` block into a folder object (`Prefix`
non-empty; display name is the last path segment). -/
def parseCommonPrefixBlock (blk : String) : List S3Object :=
  let pfx := extract_tag blk "Prefix"
  if pfx ≠ "" then
    let display :=
      if strEndsWithChar pfx '/' then strTake pfx (strLen pfx - 1)
      else pfx
    let display_name :=
      match strRfind? display '/' with
      | some idx => strDrop display (idx + 1)
      | none => display
    [{ key := pfx, display_name := display_name, size := 0,
       last_modified := "", is_folder := true }]
  else []

/-- All-digit decimal parse. -/
def parseDigits : List Char → Option Nat
  | [] => none
  | l =>
      if l.all Char.isDigit then
        some (l.foldl (fun acc c => acc * 10 + (c.toNat - 48)) 0)
      else none

/-- Rust `str::parse::<i64>()`: optional sign, decimal digits, failing on
overflow of the `i64` range. -/
def parseI64 (s : String) : Option Int :=
  match s.toList with
  | '+' :: rest =>
      (parseDigits rest).bind fun n =>
        if n ≤ 2 ^ 63 - 1 then some (n : Int) else none
  | '-' :: rest =>
      (parseDigits rest).bind fun n =>
        if n ≤ 2 ^ 63 then some (-(n : Int)) else none
  | l =>
      (parseDigits l).bind fun n =>
        if n ≤ 2 ^ 63 - 1 then some (n : Int) else none

/-- Parse one `<Contents>` block into a file object (folder markers — keys
ending in `/` — are skipped; unparsable sizes default to 0). -/
def parseContentsBlock (blk : String) : List S3Object :=
  let key := extract_tag blk "Key"
  let size := (parseI64 (extract_tag blk "Size")).getD 0
  let last_modified := extract_tag blk "LastModified"
  let display_name :=
    match strRfind? key '/' with
    | some idx => strDrop key (idx + 1)
    | none => key
  if key ≠ "" ∧ ¬ strEndsWithChar key '/' then
    [{ key := key, display_name := display_name, size := size,
       last_modified := last_modified, is_folder := false }]
  else []

/-- Result of `parse_list_objects_xml`. -/
structure ListObjectsResult where
  objects : List S3Object
  next_continuation_token : String
  is_truncated : Bool
  error : String
  deriving DecidableEq

/-- `parse_list_objects_xml`: error check first, then truncation flag,
continuation token, `<CommonPrefixes>` folders and `<Contents>` files. -/
def parse_list_objects_xml (xml : String) : ListObjectsResult :=
  let err := extract_error xml
  if err ≠ "" then
    { objects := [], next_continuation_token := "", is_truncated := false,
      error := err }
  else
    let is_truncated := extract_tag xml "IsTruncated" = "true"
    let token := extract_tag xml "NextContinuationToken"
    let l := xml.toList
    let cpBlocks :=
      scanBlocks "<CommonPrefixes>".toList "</CommonPrefixes>".toList l.length l
    let ctBlocks :=
      scanBlocks "<Contents>".toList "</Contents>".toList l.length l
    let folders := (cpBlocks.map fun b => parseCommonPrefixBlock ⟨b⟩).flatten
    let files := (ctBlocks.map fun b => parseContentsBlock ⟨b⟩).flatten
    { objects := folders ++ files, next_continuation_token := token,
      is_truncated := is_truncated, error := err }

/-! ## Event protocol (`events.rs`)

`content` / `data` payloads are byte lists; HTTP bodies arrive as
strings and are converted with `strBytes` (scalar values — identical to
the UTF-8 bytes on ASCII data, and never inspected by any claim). -/

def strBytes (s : String) : List Nat := s.toList.map Char.toNat

/-- `StateEvent` of `events.rs`. -/
inductive StateEvent where
  | bucketsLoaded (buckets : List S3Bucket)
  | bucketsLoadError (error_message : String)
  | objectsLoaded (bucket pfx continuation_token : String)
      (objects : List S3Object) (next_continuation_token : String)
      (is_truncated : Bool)
  | objectsLoadError (bucket pfx error_message : String)
  | objectContentLoaded (bucket key : String) (content : List Nat)
  | objectContentLoadError (bucket key error_message : String)
  | objectRangeLoaded (bucket key : String) (start_byte total_size : Nat)
      (data : List Nat)
  | objectRangeLoadError (bucket key : String) (start_byte : Nat)
      (error_message : String)
  deriving DecidableEq

/-! ## Request engine (`s3_backend.rs`): region handling and work items -/

/-- The fields of the profile snapshot taken by each worker. -/
structure ProfileSnapshot where
  region : String
  endpoint_url : String
  access_key_id : String
  secret_access_key : String
  session_token : String
  deriving DecidableEq

/-- Association-list model of the hash maps (`HashMap::insert`): replace
the binding for `k` if present, or add a new one.  Only lookups and entry
counts are ever observed, so the list order is immaterial. -/
def mapInsert : List (String × α) → String → α → List (String × α)
  | [], k, v => [(k, v)]
  | p :: rest, k, v =>
      if p.1 = k then (k, v) :: rest else p :: mapInsert rest k v

/-- `HashMap::get`. -/
def mapFind? : List (String × α) → String → Option α
  | [], _ => none
  | p :: rest, k => if p.1 = k then some p.2 else mapFind? rest k

/-- The per-bucket region cache. -/
abbrev RegionCache := List (String × String)

/-- `get_cached_region`: the cached region or `""`. -/
def get_cached_region (cache : RegionCache) (bucket : String) : String :=
  (mapFind? cache bucket).getD ""

/-- `cache_region`. -/
def cache_region (cache : RegionCache) (bucket region : String) : RegionCache :=
  mapInsert cache bucket region

/-- The region a work item starts from: the cached region for the bucket
if present, else the profile's region (`process_*` preamble). -/
def regionFor (cache : RegionCache) (bucket profileRegion : String) : String :=
  let cached := get_cached_region cache bucket
  if cached = "" then profileRegion else cached

/-- `parse_endpoint_host`: strip the scheme, trailing slashes and any path,
keeping only `host:port`. -/
def parse_endpoint_host (endpoint_url : String) : String :=
  let l := endpoint_url.toList
  let l1 :=
    if "https://".toList.isPrefixOf l then l.drop 8
    else if "http://".toList.isPrefixOf l then l.drop 7
    else l
  let l2 := (l1.reverse.dropWhile (· = '/')).reverse
  match findSubList ['/'] l2 with
  | some pos => ⟨l2.take pos⟩
  | none => ⟨l2⟩

/-- `build_host_path`: path-style for a custom endpoint, else
virtual-hosted `bucket.s3.region.amazonaws.com`. -/
def build_host_path (endpoint_url region bucket key : String) :
    String × String :=
  if endpoint_url ≠ "" then
    let host := parse_endpoint_host endpoint_url
    let path := "/" ++ bucket ++ (if key ≠ "" then "/" ++ key else "")
    (host, path)
  else
    let host := bucket ++ ".s3." ++ region ++ ".amazonaws.com"
    let path := if key = "" then "/" else "/" ++ key
    (host, path)

def hexUpper (n : Nat) : Char :=
  if n < 10 then Char.ofNat (48 + n) else Char.ofNat (55 + n)

/-- `url_encode` of `s3_backend.rs`: percent-encode everything except
ASCII alphanumerics and `-_.~` (slash included). -/
def url_encode (value : String) : String :=
  ⟨(value.toList.map fun c =>
      if c.isAlphanum ∨ c = '-' ∨ c = '_' ∨ c = '.' ∨ c = '~' then [c]
      else ['%', hexUpper (c.toNat / 16), hexUpper (c.toNat % 16)]).flatten⟩

/-- The fixed-order ListObjects v2 query string. -/
def listObjectsQuery (pre token : String) : String :=
  "list-type=2" ++ "&delimiter=" ++ url_encode "/" ++ "&max-keys=1000" ++
    (if pre ≠ "" then "&prefix=" ++ url_encode pre else "") ++
    (if token ≠ "" then "&continuation-token=" ++ url_encode token else "")

/-- One signed HTTP request performed by a worker, as observed for
verification: the signing region, host, path, query and the unsigned
`Range` header if any. -/
structure SignedRequestInfo where
  region : String
  host : String
  path : String
  query : String
  range_header : Option String
  deriving DecidableEq

/-- The `"Region not configured"` error message. -/
def regionNotConfiguredMsg : String :=
  "ERROR: Region not configured. Please ensure your AWS profile has a valid region."

/-- Outcome of processing one work item: the events pushed, the final
region cache, and the signed requests that were performed. -/
structure WorkOutcome where
  events : List StateEvent
  cache : RegionCache
  trace : List SignedRequestInfo
  deriving DecidableEq

/-- The `for attempt in 0..2` loop of `process_list_objects`.  `resp n` is
the HTTP response body observed on attempt `n` (`http_get` already folds
transport errors into `"ERROR: …"` and cancellation into `"CANCELLED"`).
`fuel` counts the remaining loop iterations, starting at 2. -/
def listObjectsAttempt (snap : ProfileSnapshot) (bucket pfx token : String)
    (resp : Nat → String) :
    Nat → Nat → String → RegionCache → List SignedRequestInfo → WorkOutcome
  | 0, _, _, cache, trace => { events := [], cache := cache, trace := trace }
  | fuel + 1, attempt, region, cache, trace =>
      let hp := build_host_path snap.endpoint_url region bucket ""
      let query := listObjectsQuery pfx token
      let trace1 := trace ++
        [{ region := region, host := hp.1, path := hp.2, query := query,
           range_header := none }]
      let response := resp attempt
      if response = "CANCELLED" then
        { events := [], cache := cache, trace := trace1 }
      else if strStartsWith response "ERROR:" then
        { events := [.objectsLoadError bucket pfx response], cache := cache,
          trace := trace1 }
      else
        let result := parse_list_objects_xml response
        if result.error ≠ "" then
          let error_code := extract_tag response "Code"
          if error_code = "PermanentRedirect" ∧ attempt = 0 then
            match resolve_redirect_region response bucket region with
            | some new_region =>
                listObjectsAttempt snap bucket pfx token resp fuel
                  (attempt + 1) new_region
                  (cache_region cache bucket new_region) trace1
            | none =>
                { events := [.objectsLoadError bucket pfx result.error],
                  cache := cache, trace := trace1 }
          else
            { events := [.objectsLoadError bucket pfx result.error],
              cache := cache, trace := trace1 }
        else
          { events := [.objectsLoaded bucket pfx token result.objects
              result.next_continuation_token result.is_truncated],
            cache := cache_region cache bucket region, trace := trace1 }

/-- `process_list_objects`: resolve the region (cache, then profile), fail
with `ObjectsLoadError` if it is empty, else run up to two attempts. -/
def process_list_objects (snap : ProfileSnapshot) (cache : RegionCache)
    (bucket pfx token : String) (resp : Nat → String) : WorkOutcome :=
  let region := regionFor cache bucket snap.region
  if region = "" then
    { events := [.objectsLoadError bucket pfx regionNotConfiguredMsg],
      cache := cache, trace := [] }
  else listObjectsAttempt snap bucket pfx token resp 2 0 region cache []

/-- Rust `usize` subtraction: `none` models the underflow panic. -/
def rustSub (a b : Nat) : Option Nat :=
  if b ≤ a then some (a - b) else none

/-- The optional unsigned `Range` header of `process_get_object`:
`bytes=0-(max_bytes - 1)`, whose subtraction underflows when
`max_bytes = some 0`. -/
def rangeHeaderOpt (max_bytes : Option Nat) : Option (Option String) :=
  match max_bytes with
  | none => some none
  | some mb => (rustSub mb 1).map fun v => some ("bytes=0-" ++ toString v)

/-- The error outcome of a GetObject attempt once redirect recovery is
ruled out: `InvalidRange` is converted into a successful
`ObjectContentLoaded` with empty content, anything else into
`ObjectContentLoadError`. -/
def getObjectErrorOutcome (bucket key err error_code : String)
    (cache : RegionCache) (trace : List SignedRequestInfo) : WorkOutcome :=
  if error_code = "InvalidRange" then
    { events := [.objectContentLoaded bucket key []], cache := cache,
      trace := trace }
  else
    { events := [.objectContentLoadError bucket key err], cache := cache,
      trace := trace }

/-- The `for attempt in 0..2` loop of `process_get_object`.  The result is
`none` when the Range-header subtraction panics. -/
def getObjectAttempt (snap : ProfileSnapshot) (bucket key : String)
    (max_bytes : Option Nat) (resp : Nat → String) :
    Nat → Nat → String → RegionCache → List SignedRequestInfo →
      Option WorkOutcome
  | 0, _, _, cache, trace =>
      some { events := [], cache := cache, trace := trace }
  | fuel + 1, attempt, region, cache, trace =>
      let hp := build_host_path snap.endpoint_url region bucket key
      match rangeHeaderOpt max_bytes with
      | none => none
      | some rh =>
          let trace1 := trace ++
            [{ region := region, host := hp.1, path := hp.2, query := "",
               range_header := rh }]
          let response := resp attempt
          if response = "CANCELLED" then
            some { events := [], cache := cache, trace := trace1 }
          else if strStartsWith response "ERROR:" then
            some { events := [.objectContentLoadError bucket key response],
                   cache := cache, trace := trace1 }
          else
            let err := extract_error response
            if err ≠ "" then
              let error_code := extract_tag response "Code"
              if error_code = "PermanentRedirect" ∧ attempt = 0 then
                match resolve_redirect_region response bucket region with
                | some new_region =>
                    getObjectAttempt snap bucket key max_bytes resp fuel
                      (attempt + 1) new_region
                      (cache_region cache bucket new_region) trace1
                | none =>
                    some (getObjectErrorOutcome bucket key err error_code
                      cache trace1)
              else
                some (getObjectErrorOutcome bucket key err error_code
                  cache trace1)
            else
              some { events := [.objectContentLoaded bucket key
                      (strBytes response)],
                     cache := cache_region cache bucket region,
                     trace := trace1 }

/-- `process_get_object`: resolve the region (cache, then profile), fail
with `ObjectContentLoadError` if it is empty, else run up to two attempts;
`none` models the `max_bytes - 1` underflow panic. -/
def process_get_object (snap : ProfileSnapshot) (cache : RegionCache)
    (bucket key : String) (max_bytes : Option Nat) (resp : Nat → String) :
    Option WorkOutcome :=
  let region := regionFor cache bucket snap.region
  if region = "" then
    some { events := [.objectContentLoadError bucket key
            regionNotConfiguredMsg],
           cache := cache, trace := [] }
  else getObjectAttempt snap bucket key max_bytes resp 2 0 region cache []

/-! ## Lemmas about the request engine -/

theorem strAppendNeEmpty (s t : String) (h : s ≠ "") : s ++ t ≠ "" := by
  intro he
  apply h
  have hd : s.data ++ t.data = ([] : List Char) := by
    simpa [String.data_append] using congrArg String.data he
  rcases List.append_eq_nil.mp hd with ⟨h1, _⟩
  exact String.ext h1

theorem extract_error_ne_empty {xml c : String}
    (h : extract_tag xml "Code" = c) (hc : c ≠ "") : extract_error xml ≠ "" := by
  simp only [extract_error]
  rw [h, if_pos hc]
  exact strAppendNeEmpty _ _ (strAppendNeEmpty _ _ hc)

theorem parse_list_objects_xml_error (xml : String) :
    (parse_list_objects_xml xml).error = extract_error xml := by
  simp only [parse_list_objects_xml]
  split <;> rfl

theorem mapFind?_mapInsert_self {α : Type} (m : List (String × α))
    (k : String) (v : α) : mapFind? (mapInsert m k v) k = some v := by
  induction m with
  | nil => simp [mapInsert, mapFind?]
  | cons p rest ih =>
      by_cases hp : p.1 = k
      · simp [mapInsert, mapFind?, hp]
      · simp [mapInsert, mapFind?, hp, ih]

theorem fallbackRegion_ne_empty (r2 : String) : fallbackRegion r2 ≠ "" := by
  unfold fallbackRegion
  split
  · decide
  · rename_i h
    exact h

theorem redirectRegionCandidate_ne_empty (body bucket : String) :
    redirectRegionCandidate body bucket ≠ "" := by
  simp only [redirectRegionCandidate]
  exact fallbackRegion_ne_empty _

theorem resolve_redirect_region_eq (body bucket current : String)
    (h : redirectRegionCandidate body bucket ≠ current) :
    resolve_redirect_region body bucket current =
      some (redirectRegionCandidate body bucket) := by
  simp only [resolve_redirect_region]
  rw [if_pos ⟨redirectRegionCandidate_ne_empty body bucket, h⟩]

/-- The signed ListObjects request recorded for a given region. -/
def listObjectsReq (snap : ProfileSnapshot) (bucket pfx token region : String) :
    SignedRequestInfo :=
  { region := region,
    host := (build_host_path snap.endpoint_url region bucket "").1,
    path := (build_host_path snap.endpoint_url region bucket "").2,
    query := listObjectsQuery pfx token, range_header := none }

theorem listObjectsAttempt_trace_mono (snap : ProfileSnapshot)
    (bucket pfx token : String) (resp : Nat → String) :
    ∀ (fuel attempt : Nat) (region : String) (cache : RegionCache)
      (trace : List SignedRequestInfo),
      ∃ t, (listObjectsAttempt snap bucket pfx token resp fuel attempt region
        cache trace).trace = trace ++ t := by
  intro fuel
  induction fuel with
  | zero =>
      intro attempt region cache trace
      exact ⟨[], by simp [listObjectsAttempt]⟩
  | succ fuel ih =>
      intro attempt region cache trace
      simp only [listObjectsAttempt]
      split
      · exact ⟨_, rfl⟩
      · split
        · exact ⟨_, rfl⟩
        · split
          · split
            · split
              · rename_i nr _
                obtain ⟨t, ht⟩ := ih (attempt + 1) nr
                  (cache_region cache bucket nr)
                  (trace ++ [listObjectsReq snap bucket pfx token region])
                exact ⟨listObjectsReq snap bucket pfx token region :: t,
                  by simpa [listObjectsReq, List.append_assoc] using ht⟩
              · exact ⟨_, rfl⟩
            · exact ⟨_, rfl⟩
          · exact ⟨_, rfl⟩

theorem listObjectsAttempt_trace_head (snap : ProfileSnapshot)
    (bucket pfx token : String) (resp : Nat → String)
    (fuel attempt : Nat) (region : String) (cache : RegionCache)
    (trace : List SignedRequestInfo) :
    ∃ t, (listObjectsAttempt snap bucket pfx token resp (fuel + 1) attempt
        region cache trace).trace =
      trace ++ listObjectsReq snap bucket pfx token region :: t := by
  simp only [listObjectsAttempt]
  split
  · exact ⟨[], by simp [listObjectsReq]⟩
  · split
    · exact ⟨[], by simp [listObjectsReq]⟩
    · split
      · split
        · split
          · rename_i nr _
            obtain ⟨t, ht⟩ := listObjectsAttempt_trace_mono snap bucket pfx
              token resp fuel (attempt + 1) nr (cache_region cache bucket nr)
              (trace ++ [listObjectsReq snap bucket pfx token region])
            exact ⟨t, by simpa [listObjectsReq, List.append_assoc] using ht⟩
          · exact ⟨[], by simp [listObjectsReq]⟩
        · exact ⟨[], by simp [listObjectsReq]⟩
      · exact ⟨[], by simp [listObjectsReq]⟩

/-- The signed GetObject request recorded for a given region and Range
header. -/
def getObjectReq (snap : ProfileSnapshot) (bucket key region : String)
    (rh : Option String) : SignedRequestInfo :=
  { region := region,
    host := (build_host_path snap.endpoint_url region bucket key).1,
    path := (build_host_path snap.endpoint_url region bucket key).2,
    query := "", range_header := rh }

theorem getObjectAttempt_some_trace (snap : ProfileSnapshot)
    (bucket key : String) (max_bytes : Option Nat) (resp : Nat → String) :
    ∀ (fuel attempt : Nat) (region : String) (cache : RegionCache)
      (trace : List SignedRequestInfo) (o : WorkOutcome),
      getObjectAttempt snap bucket key max_bytes resp fuel attempt region
        cache trace = some o →
      ∃ t, o.trace = trace ++ t := by
  intro fuel
  induction fuel with
  | zero =>
      intro attempt region cache trace o h
      simp only [getObjectAttempt, Option.some.injEq] at h
      exact ⟨[], by simp [← h]⟩
  | succ fuel ih =>
      intro attempt region cache trace o h
      simp only [getObjectAttempt] at h
      split at h
      · exact absurd h (by simp)
      · split at h
        · exact ⟨_, by rw [← Option.some.inj h]⟩
        · split at h
          · exact ⟨_, by rw [← Option.some.inj h]⟩
          · split at h
            · split at h
              · split at h
                · obtain ⟨t, ht⟩ := ih _ _ _ _ _ h
                  exact ⟨_, ht.trans (List.append_assoc _ _ _)⟩
                · exact ⟨_, by rw [← Option.some.inj h]; simp [getObjectErrorOutcome]; split <;> rfl⟩
              · exact ⟨_, by rw [← Option.some.inj h]; simp [getObjectErrorOutcome]; split <;> rfl⟩
            · exact ⟨_, by rw [← Option.some.inj h]⟩

theorem getObjectAttempt_trace_head (snap : ProfileSnapshot)
    (bucket key : String) (max_bytes : Option Nat) (resp : Nat → String)
    (fuel attempt : Nat) (region : String) (cache : RegionCache)
    (trace : List SignedRequestInfo) (o : WorkOutcome) (rh : Option String)
    (hrh : rangeHeaderOpt max_bytes = some rh)
    (h : getObjectAttempt snap bucket key max_bytes resp (fuel + 1) attempt
      region cache trace = some o) :
    ∃ t, o.trace = trace ++ getObjectReq snap bucket key region rh :: t := by
  simp only [getObjectAttempt] at h
  rw [hrh] at h
  simp only [] at h
  split at h
  · exact ⟨[], by rw [← Option.some.inj h]; simp [getObjectReq]⟩
  · split at h
    · exact ⟨[], by rw [← Option.some.inj h]; simp [getObjectReq]⟩
    · split at h
      · split at h
        · split at h
          · obtain ⟨t, ht⟩ := getObjectAttempt_some_trace snap bucket key
              max_bytes resp fuel _ _ _ _ _ h
            exact ⟨t, by simpa [getObjectReq, List.append_assoc] using ht⟩
          · exact ⟨[], by rw [← Option.some.inj h]; simp [getObjectErrorOutcome, getObjectReq]; split <;> rfl⟩
        · exact ⟨[], by rw [← Option.some.inj h]; simp [getObjectErrorOutcome, getObjectReq]; split <;> rfl⟩
      · exact ⟨[], by rw [← Option.some.inj h]; simp [getObjectReq]⟩

theorem getObjectAttempt_isSome (snap : ProfileSnapshot) (bucket key : String)
    (max_bytes : Option Nat) (resp : Nat → String) (rh : Option String)
    (hrh : rangeHeaderOpt max_bytes = some rh) :
    ∀ (fuel attempt : Nat) (region : String) (cache : RegionCache)
      (trace : List SignedRequestInfo),
      (getObjectAttempt snap bucket key max_bytes resp fuel attempt region
        cache trace).isSome := by
  intro fuel
  induction fuel with
  | zero => intro attempt region cache trace; simp [getObjectAttempt]
  | succ fuel ih =>
      intro attempt region cache trace
      simp only [getObjectAttempt]
      rw [hrh]
      simp only []
      split
      · simp
      · split
        · simp
        · split
          · split
            · split
              · exact ih _ _ _ _
              · simp
            · simp
          · simp

/-- Claim C2 counterexample: with no cached region for the bucket and an
empty profile region, a ListObjects work item performs no request at all
(the trace is empty) and emits an `ObjectsLoadError`, instead of being
performed with region `us-east-1` as claimed; a GetObject work item fails
the same way. -/
theorem c2_counterexample :
    (process_list_objects ⟨"", "", "AK", "SK", ""⟩ [] "mybucket" "" ""
        (fun _ => "")).trace = [] ∧
    (process_list_objects ⟨"", "", "AK", "SK", ""⟩ [] "mybucket" "" ""
        (fun _ => "")).events =
      [.objectsLoadError "mybucket" "" regionNotConfiguredMsg] ∧
    process_get_object ⟨"", "", "AK", "SK", ""⟩ [] "mybucket" "k.txt"
        (some 65536) (fun _ => "") =
      some { events := [.objectContentLoadError "mybucket" "k.txt"
               regionNotConfiguredMsg], cache := [], trace := [] } := by
  decide

/-- Claim C2 (amended): the region used to sign and address a ListObjects
or GetObject work item is the cached region for the bucket if present,
else the profile's region; when both are empty the request is *not*
performed — the engine emits a `Region not configured` error event and
records no signed request (there is no `us-east-1` per-request fallback;
that default is applied when profiles are loaded, in `credentials.rs`). -/
theorem c2_region_selection (snap : ProfileSnapshot) (cache : RegionCache)
    (bucket pfx token key : String) (max_bytes : Option Nat)
    (resp resp2 : Nat → String) :
    (regionFor cache bucket snap.region = "" →
      process_list_objects snap cache bucket pfx token resp =
        { events := [.objectsLoadError bucket pfx regionNotConfiguredMsg],
          cache := cache, trace := [] } ∧
      process_get_object snap cache bucket key max_bytes resp2 =
        some { events := [.objectContentLoadError bucket key
                 regionNotConfiguredMsg],
               cache := cache, trace := [] }) ∧
    (regionFor cache bucket snap.region ≠ "" →
      (∃ t, (process_list_objects snap cache bucket pfx token resp).trace =
        listObjectsReq snap bucket pfx token
          (regionFor cache bucket snap.region) :: t) ∧
      (∀ (o : WorkOutcome) (rh : Option String),
        rangeHeaderOpt max_bytes = some rh →
        process_get_object snap cache bucket key max_bytes resp2 = some o →
        ∃ t, o.trace =
          getObjectReq snap bucket key (regionFor cache bucket snap.region)
            rh :: t)) := by
  constructor
  · intro h
    constructor
    · simp [process_list_objects, h]
    · simp [process_get_object, h]
  · intro h
    constructor
    · obtain ⟨t, ht⟩ := listObjectsAttempt_trace_head snap bucket pfx token
        resp 1 0 (regionFor cache bucket snap.region) cache []
      have ht2 : (listObjectsAttempt snap bucket pfx token resp 2 0
          (regionFor cache bucket snap.region) cache []).trace =
        [] ++ listObjectsReq snap bucket pfx token
          (regionFor cache bucket snap.region) :: t := ht
      refine ⟨t, ?_⟩
      have hpe : process_list_objects snap cache bucket pfx token resp =
          listObjectsAttempt snap bucket pfx token resp 2 0
            (regionFor cache bucket snap.region) cache [] := by
        simp [process_list_objects, h]
      rw [hpe]
      simpa using ht2
    · intro o rh hrh ho
      have hpe : getObjectAttempt snap bucket key max_bytes resp2 2 0
          (regionFor cache bucket snap.region) cache [] = some o := by
        simpa [process_get_object, h] using ho
      have hpe1 : getObjectAttempt snap bucket key max_bytes resp2 (1 + 1) 0
          (regionFor cache bucket snap.region) cache [] = some o := hpe
      obtain ⟨t, ht⟩ := getObjectAttempt_trace_head snap bucket key max_bytes
        resp2 1 0 (regionFor cache bucket snap.region) cache [] o rh hrh hpe1
      exact ⟨t, by simpa using ht⟩

/-- Witness for C2 at a concrete input: empty profile region and empty
cache make both work items fail with the error event and an empty trace. -/
theorem c2_region_selection_witness :
    process_list_objects ⟨"", "", "AK", "SK", ""⟩ [] "wb" "p/" ""
        (fun _ => "") =
      { events := [.objectsLoadError "wb" "p/" regionNotConfiguredMsg],
        cache := [], trace := [] } ∧
    process_get_object ⟨"", "", "AK", "SK", ""⟩ [] "wb" "k.txt" (some 100)
        (fun _ => "") =
      some { events := [.objectContentLoadError "wb" "k.txt"
               regionNotConfiguredMsg], cache := [], trace := [] } :=
  (c2_region_selection ⟨"", "", "AK", "SK", ""⟩ [] "wb" "p/" "" "k.txt"
    (some 100) (fun _ => "") (fun _ => "")).1 (by decide)

/-- Claim C3: on a `PermanentRedirect` ListObjects response (not a
transport error, not cancelled) whose resolved region — from the
`<Endpoint>` tag, else a known-region substring of the lowercased bucket
name, else `us-east-1` — differs from the current region, the engine
performs exactly two signed requests (the retry signed with the resolved
region), caches the resolved region for the bucket, and on a clean retry
response the model receives only the single `ObjectsLoaded` success event;
a `PermanentRedirect` on the retry is emitted as `ObjectsLoadError` with
no further retry. -/
theorem c3_permanent_redirect_retry (snap : ProfileSnapshot)
    (cache : RegionCache) (bucket pfx token : String) (resp : Nat → String)
    (hR : regionFor cache bucket snap.region ≠ "")
    (h0c : resp 0 ≠ "CANCELLED")
    (h0e : strStartsWith (resp 0) "ERROR:" = false)
    (h0p : extract_tag (resp 0) "Code" = "PermanentRedirect")
    (hC : redirectRegionCandidate (resp 0) bucket ≠
      regionFor cache bucket snap.region) :
    (process_list_objects snap cache bucket pfx token resp).trace =
      [listObjectsReq snap bucket pfx token
         (regionFor cache bucket snap.region),
       listObjectsReq snap bucket pfx token
         (redirectRegionCandidate (resp 0) bucket)] ∧
    mapFind? (process_list_objects snap cache bucket pfx token resp).cache
        bucket = some (redirectRegionCandidate (resp 0) bucket) ∧
    (resp 1 ≠ "CANCELLED" → strStartsWith (resp 1) "ERROR:" = false →
      extract_error (resp 1) = "" →
      (process_list_objects snap cache bucket pfx token resp).events =
        [.objectsLoaded bucket pfx token
           (parse_list_objects_xml (resp 1)).objects
           (parse_list_objects_xml (resp 1)).next_continuation_token
           (parse_list_objects_xml (resp 1)).is_truncated]) ∧
    (resp 1 ≠ "CANCELLED" → strStartsWith (resp 1) "ERROR:" = false →
      extract_tag (resp 1) "Code" = "PermanentRedirect" →
      (process_list_objects snap cache bucket pfx token resp).events =
        [.objectsLoadError bucket pfx
           (parse_list_objects_xml (resp 1)).error]) := by
  have herr0 : (parse_list_objects_xml (resp 0)).error ≠ "" := by
    rw [parse_list_objects_xml_error]
    exact extract_error_ne_empty h0p (by decide)
  have hres : resolve_redirect_region (resp 0) bucket
      (regionFor cache bucket snap.region) =
      some (redirectRegionCandidate (resp 0) bucket) :=
    resolve_redirect_region_eq _ _ _ hC
  refine ⟨?_, ?_, ?_, ?_⟩
  · by_cases h1c : resp 1 = "CANCELLED"
    · simp [process_list_objects, listObjectsAttempt, hR, h0c, h0e, h0p,
        herr0, hres, h1c, listObjectsReq]
    · cases h1e : strStartsWith (resp 1) "ERROR:" with
      | true =>
          simp [process_list_objects, listObjectsAttempt, hR, h0c, h0e, h0p,
            herr0, hres, h1c, h1e, listObjectsReq]
      | false =>
          by_cases h1p : (parse_list_objects_xml (resp 1)).error = ""
          · simp [process_list_objects, listObjectsAttempt, hR, h0c, h0e,
              h0p, herr0, hres, h1c, h1e, h1p, listObjectsReq]
          · simp [process_list_objects, listObjectsAttempt, hR, h0c, h0e,
              h0p, herr0, hres, h1c, h1e, h1p, listObjectsReq]
  · by_cases h1c : resp 1 = "CANCELLED"
    · simp [process_list_objects, listObjectsAttempt, hR, h0c, h0e, h0p,
        herr0, hres, h1c, cache_region, mapFind?_mapInsert_self]
    · cases h1e : strStartsWith (resp 1) "ERROR:" with
      | true =>
          simp [process_list_objects, listObjectsAttempt, hR, h0c, h0e, h0p,
            herr0, hres, h1c, h1e, cache_region, mapFind?_mapInsert_self]
      | false =>
          by_cases h1p : (parse_list_objects_xml (resp 1)).error = ""
          · simp [process_list_objects, listObjectsAttempt, hR, h0c, h0e,
              h0p, herr0, hres, h1c, h1e, h1p, cache_region,
              mapFind?_mapInsert_self]
          · simp [process_list_objects, listObjectsAttempt, hR, h0c, h0e,
              h0p, herr0, hres, h1c, h1e, h1p, cache_region,
              mapFind?_mapInsert_self]
  · intro h1c h1e h1err
    have h1p : (parse_list_objects_xml (resp 1)).error = "" := by
      rw [parse_list_objects_xml_error]
      exact h1err
    simp [process_list_objects, listObjectsAttempt, hR, h0c, h0e, h0p, herr0,
      hres, h1c, h1e, h1p]
  · intro h1c h1e h1p
    have h1err : (parse_list_objects_xml (resp 1)).error ≠ "" := by
      rw [parse_list_objects_xml_error]
      exact extract_error_ne_empty h1p (by decide)
    simp [process_list_objects, listObjectsAttempt, hR, h0c, h0e, h0p, herr0,
      hres, h1c, h1e, h1err, h1p]

/-- Concrete response sequence for the redirect scenario: a
`PermanentRedirect` with an `<Endpoint>` naming `eu-west-1`, then a clean
listing. -/
def c3RespW : Nat → String := fun n =>
  if n = 0 then
    "<Error><Code>PermanentRedirect</Code><Endpoint>x.s3.eu-west-1.amazonaws.com</Endpoint></Error>"
  else
    "<ListBucketResult><IsTruncated>false</IsTruncated></ListBucketResult>"

/-- Witness for C3 at the spec's redirect scenario: after the retry the
region cache maps bucket `x` to `eu-west-1` and the only event is the
`ObjectsLoaded` success. -/
theorem c3_permanent_redirect_retry_witness :
    mapFind? (process_list_objects ⟨"us-east-1", "", "AK", "SK", ""⟩ []
        "x" "" "" c3RespW).cache "x" = some "eu-west-1" ∧
    (process_list_objects ⟨"us-east-1", "", "AK", "SK", ""⟩ []
        "x" "" "" c3RespW).events = [.objectsLoaded "x" "" "" [] "" false] :=
  ⟨(c3_permanent_redirect_retry ⟨"us-east-1", "", "AK", "SK", ""⟩ [] "x" "" ""
      c3RespW (by decide) (by decide) (by decide) (by decide) (by decide)).2.1,
   (c3_permanent_redirect_retry ⟨"us-east-1", "", "AK", "SK", ""⟩ [] "x" "" ""
      c3RespW (by decide) (by decide) (by decide) (by decide)
      (by decide)).2.2.1 (by decide) (by decide) (by decide)⟩

/-- Claim C6: a GetObject response that parses as an S3 error with
`Code = InvalidRange` (not a transport error, not cancelled) is treated as
an empty file: the engine emits exactly one `ObjectContentLoaded` event
with empty content and no error event, leaving the region cache
unchanged. -/
theorem c6_invalid_range_empty_content (snap : ProfileSnapshot)
    (cache : RegionCache) (bucket key : String) (max_bytes : Option Nat)
    (resp : Nat → String) (rh : Option String)
    (hR : regionFor cache bucket snap.region ≠ "")
    (hrh : rangeHeaderOpt max_bytes = some rh)
    (h0c : resp 0 ≠ "CANCELLED")
    (h0e : strStartsWith (resp 0) "ERROR:" = false)
    (h0i : extract_tag (resp 0) "Code" = "InvalidRange") :
    process_get_object snap cache bucket key max_bytes resp =
      some { events := [.objectContentLoaded bucket key []], cache := cache,
             trace := [getObjectReq snap bucket key
               (regionFor cache bucket snap.region) rh] } := by
  have herr : extract_error (resp 0) ≠ "" :=
    extract_error_ne_empty h0i (by decide)
  simp [process_get_object, getObjectAttempt, hR, hrh, h0c, h0e, h0i, herr,
    getObjectErrorOutcome, getObjectReq]

/-- Witness for C6 at a concrete `InvalidRange` response body. -/
theorem c6_invalid_range_empty_content_witness :
    process_get_object ⟨"us-east-1", "", "AK", "SK", ""⟩ [] "b" "empty.txt"
        (some 65536)
        (fun _ => "<Error><Code>InvalidRange</Code><Message>The requested range is not satisfiable</Message></Error>") =
      some { events := [.objectContentLoaded "b" "empty.txt" []], cache := [],
             trace := [getObjectReq ⟨"us-east-1", "", "AK", "SK", ""⟩ "b"
               "empty.txt" "us-east-1" (some "bytes=0-65535")] } :=
  c6_invalid_range_empty_content ⟨"us-east-1", "", "AK", "SK", ""⟩ [] "b"
    "empty.txt" (some 65536)
    (fun _ => "<Error><Code>InvalidRange</Code><Message>The requested range is not satisfiable</Message></Error>")
    (some "bytes=0-65535") (by decide) (by decide) (by decide) (by decide)
    (by decide)

/-- Claim C9: the GetObject `Range` header is built with an unchecked
`usize` subtraction `max_bytes - 1`: for every `some n` with `1 ≤ n` the
subtraction does not underflow and the header is `bytes=0-(n-1)`, while
`some 0` underflows (modelled as `none`), making the whole work item
undefined whenever the request is actually attempted. -/
theorem c9_range_header_underflow :
    (∀ n : Nat, 1 ≤ n → rustSub n 1 = some (n - 1) ∧
      rangeHeaderOpt (some n) = some (some ("bytes=0-" ++ toString (n - 1)))) ∧
    rangeHeaderOpt (some 0) = none ∧
    (∀ (snap : ProfileSnapshot) (cache : RegionCache) (bucket key : String)
       (resp : Nat → String),
      regionFor cache bucket snap.region ≠ "" →
      process_get_object snap cache bucket key (some 0) resp = none) ∧
    (∀ (snap : ProfileSnapshot) (cache : RegionCache) (bucket key : String)
       (n : Nat) (resp : Nat → String),
      1 ≤ n →
      (process_get_object snap cache bucket key (some n) resp).isSome) := by
  refine ⟨?_, ?_, ?_, ?_⟩
  · intro n hn
    constructor
    · simp [rustSub, hn]
    · simp [rangeHeaderOpt, rustSub, hn]
  · simp [rangeHeaderOpt, rustSub]
  · intro snap cache bucket key resp hR
    simp [process_get_object, getObjectAttempt, hR, rangeHeaderOpt, rustSub]
  · intro snap cache bucket key n resp hn
    have hrh : rangeHeaderOpt (some n) =
        some (some ("bytes=0-" ++ toString (n - 1))) := by
      simp [rangeHeaderOpt, rustSub, hn]
    simp only [process_get_object]
    split
    · simp
    · exact getObjectAttempt_isSome snap bucket key (some n) resp _ hrh 2 0 _
        cache []

/-- Witness for C9: `max_bytes = some 65536` yields `bytes=0-65535` and a
defined outcome, `max_bytes = some 0` underflows and the work item is
undefined. -/
theorem c9_range_header_underflow_witness :
    (rustSub 65536 1 = some 65535 ∧
      rangeHeaderOpt (some 65536) = some (some "bytes=0-65535")) ∧
    rangeHeaderOpt (some 0) = none ∧
    process_get_object ⟨"us-east-1", "", "AK", "SK", ""⟩ [] "b" "k.txt"
      (some 0) (fun _ => "") = none ∧
    (process_get_object ⟨"us-east-1", "", "AK", "SK", ""⟩ [] "b" "k.txt"
      (some 65536) (fun _ => "")).isSome :=
  ⟨c9_range_header_underflow.1 65536 (by decide),
   c9_range_header_underflow.2.1,
   c9_range_header_underflow.2.2.1 ⟨"us-east-1", "", "AK", "SK", ""⟩ [] "b"
     "k.txt" (fun _ => "") (by decide),
   c9_range_header_underflow.2.2.2 ⟨"us-east-1", "", "AK", "SK", ""⟩ [] "b"
     "k.txt" 65536 (fun _ => "") (by decide)⟩

/-! ## Signer canonical query (`signer.rs::sort_query_string`)

Tokens are manipulated as `List Char`; the `List Char` linear order is
lexicographic on code points, which coincides with Rust's byte-wise `str`
ordering (UTF-8 byte order equals code-point order). -/

/-- Rust `str::split(c)`: split on every occurrence of `c`, keeping empty
segments (`""` splits to `[""]`). -/
def splitOnChar (c : Char) : List Char → List (List Char)
  | [] => [[]]
  | x :: rest =>
      if x = c then [] :: splitOnChar c rest
      else
        match splitOnChar c rest with
        | [] => [[x]]
        | g :: gs => (x :: g) :: gs

/-- Split a query token at its first `=` (`param.find('=')`): key and
value, or the whole token with an empty value. -/
def splitEqTok (tok : List Char) : List Char × List Char :=
  match findSubList ['='] tok with
  | some i => (tok.take i, tok.drop (i + 1))
  | none => (tok, [])

/-- Re-render a `(key, value)` pair: the key, then `=value` only when the
value is non-empty (the fold in `sort_query_string`). -/
def renderPair (p : List Char × List Char) : List Char :=
  p.1 ++ (if p.2.isEmpty then [] else '=' :: p.2)

/-- The `Ord`-derived `≤` on Rust `(&str, &str)` tuples: lexicographic on
the key, then the value. -/
abbrev pairLe (a b : List Char × List Char) : Prop :=
  a.1 < b.1 ∨ (a.1 = b.1 ∧ a.2 ≤ b.2)

/-- `sort_query_string`: split on `&`, split each token at its first `=`,
sort the `(key, value)` pairs, and re-render joined by `&`, writing `=`
only before non-empty values. -/
def sort_query_string (query : String) : String :=
  if query = "" then ""
  else
    let params := (splitOnChar '&' query.data).map splitEqTok
    let sorted := params.insertionSort pairLe
    ⟨List.intercalate ['&'] (sorted.map renderPair)⟩

/-- The canonical query as the claim words it: split on `&`, sort the
*full tokens* lexicographically, and rejoin with `&` preserving each
token's original encoding (trailing `=` included). -/
def specCanonicalQuery (query : String) : String :=
  if query = "" then ""
  else
    ⟨List.intercalate ['&']
      ((splitOnChar '&' query.data).insertionSort (· ≤ ·))⟩

/-- The `(key, value)` decomposition of a query string. -/
def parseQuery (s : String) : List (List Char × List Char) :=
  (splitOnChar '&' s.data).map splitEqTok

instance : IsTotal (List Char × List Char) pairLe :=
  ⟨fun a b => by
    rcases lt_trichotomy a.1 b.1 with h | h | h
    · exact Or.inl (Or.inl h)
    · rcases le_total a.2 b.2 with hle | hle
      · exact Or.inl (Or.inr ⟨h, hle⟩)
      · exact Or.inr (Or.inr ⟨h.symm, hle⟩)
    · exact Or.inr (Or.inl h)⟩

instance : IsTrans (List Char × List Char) pairLe :=
  ⟨fun a b c hab hbc => by
    rcases hab with hab | ⟨hab1, hab2⟩
    · rcases hbc with hbc | ⟨hbc1, hbc2⟩
      · exact Or.inl (hab.trans hbc)
      · exact Or.inl (hbc1 ▸ hab)
    · rcases hbc with hbc | ⟨hbc1, hbc2⟩
      · exact Or.inl (hab1 ▸ hbc)
      · exact Or.inr ⟨hab1.trans hbc1, hab2.trans hbc2⟩⟩

theorem splitOnChar_ne_nil (c : Char) (l : List Char) :
    splitOnChar c l ≠ [] := by
  induction l with
  | nil => simp [splitOnChar]
  | cons x rest ih =>
      by_cases hx : x = c
      · simp [splitOnChar, hx]
      · simp only [splitOnChar, if_neg hx]
        split <;> simp

theorem splitOnChar_not_mem (c : Char) (l : List Char) :
    ∀ part ∈ splitOnChar c l, c ∉ part := by
  induction l with
  | nil =>
      intro part hp
      simp [splitOnChar] at hp
      subst hp
      simp
  | cons x rest ih =>
      intro part hp
      by_cases hx : x = c
      · simp only [splitOnChar, if_pos hx] at hp
        rcases List.mem_cons.mp hp with hp | hp
        · subst hp; simp
        · exact ih part hp
      · simp only [splitOnChar, if_neg hx] at hp
        cases hsp : splitOnChar c rest with
        | nil => exact absurd hsp (splitOnChar_ne_nil c rest)
        | cons g gs =>
            rw [hsp] at hp
            rcases List.mem_cons.mp hp with hp | hp
            · subst hp
              intro hmem
              rcases List.mem_cons.mp hmem with h | h
              · exact hx h.symm
              · exact ih g (hsp ▸ List.mem_cons_self g gs) h
            · exact ih part (hsp ▸ List.mem_cons_of_mem g hp)

theorem splitOnChar_of_not_mem {c : Char} {l : List Char} (h : c ∉ l) :
    splitOnChar c l = [l] := by
  induction l with
  | nil => rfl
  | cons x rest ih =>
      have hx : x ≠ c := fun he => h (he ▸ List.mem_cons_self x rest)
      have hr : c ∉ rest := fun hm => h (List.mem_cons_of_mem x hm)
      simp only [splitOnChar, if_neg hx, ih hr]

theorem splitOnChar_append {c : Char} {l : List Char} (h : c ∉ l)
    (rest : List Char) :
    splitOnChar c (l ++ c :: rest) = l :: splitOnChar c rest := by
  induction l with
  | nil => simp [splitOnChar]
  | cons x l' ih =>
      have hx : x ≠ c := fun he => h (he ▸ List.mem_cons_self x l')
      have hl : c ∉ l' := fun hm => h (List.mem_cons_of_mem x hm)
      simp only [List.cons_append, splitOnChar, if_neg hx, List.append_eq,
        ih hl]

theorem intercalate_cons_cons (c : Char) (a b : List Char)
    (t : List (List Char)) :
    List.intercalate [c] (a :: b :: t) =
      a ++ c :: List.intercalate [c] (b :: t) := by
  simp [List.intercalate, List.intersperse]

theorem splitOnChar_intercalate (c : Char) :
    ∀ ls : List (List Char), ls ≠ [] → (∀ l ∈ ls, c ∉ l) →
      splitOnChar c (List.intercalate [c] ls) = ls := by
  intro ls
  induction ls with
  | nil => intro h; exact absurd rfl h
  | cons l ls ih =>
      intro _ hmem
      cases ls with
      | nil =>
          have : List.intercalate [c] [l] = l := by
            simp [List.intercalate, List.intersperse]
          rw [this, splitOnChar_of_not_mem (hmem l (List.mem_cons_self l []))]
      | cons l2 t =>
          rw [intercalate_cons_cons c l l2 t,
            splitOnChar_append (hmem l (List.mem_cons_self l _)),
            ih (by simp) (fun x hx => hmem x (List.mem_cons_of_mem l hx))]

theorem findSubList_single_of_not_mem {c : Char} {l : List Char}
    (h : c ∉ l) : findSubList [c] l = none := by
  induction l with
  | nil => rfl
  | cons x rest ih =>
      have hx : x ≠ c := fun he => h (he ▸ List.mem_cons_self x rest)
      have hr : c ∉ rest := fun hm => h (List.mem_cons_of_mem x hm)
      simp [findSubList, List.isPrefixOf, Ne.symm hx, ih hr]

theorem findSubList_single_append {c : Char} {l : List Char} (h : c ∉ l)
    (rest : List Char) :
    findSubList [c] (l ++ c :: rest) = some l.length := by
  induction l with
  | nil => simp [findSubList, List.isPrefixOf]
  | cons x l' ih =>
      have hx : x ≠ c := fun he => h (he ▸ List.mem_cons_self x l')
      have hl : c ∉ l' := fun hm => h (List.mem_cons_of_mem x hm)
      simp [findSubList, List.isPrefixOf, Ne.symm hx, ih hl]

theorem findSubList_single_not_mem_take {c : Char} :
    ∀ {l : List Char} {i : Nat}, findSubList [c] l = some i → c ∉ l.take i := by
  intro l
  induction l with
  | nil => intro i h; simp [findSubList] at h
  | cons x rest ih =>
      intro i h
      by_cases hx : x = c
      · have h0 : findSubList [c] (x :: rest) = some 0 := by
          simp [findSubList, List.isPrefixOf, hx]
        rw [h0] at h
        cases h
        simp
      · have h' : (findSubList [c] rest).map (· + 1) = some i := by
          simpa [findSubList, List.isPrefixOf, Ne.symm hx] using h
        cases hfr : findSubList [c] rest with
        | none => rw [hfr] at h'; simp at h'
        | some j =>
            rw [hfr] at h'
            simp only [Option.map_some', Option.some.injEq] at h'
            subst h'
            rw [List.take_succ_cons]
            intro hmem
            rcases List.mem_cons.mp hmem with hc | hc
            · exact hx hc.symm
            · exact ih hfr hc

theorem findSubList_single_none_not_mem {c : Char} :
    ∀ {l : List Char}, findSubList [c] l = none → c ∉ l := by
  intro l
  induction l with
  | nil => intro _ h; simp at h
  | cons x rest ih =>
      intro h
      by_cases hx : x = c
      · rw [show findSubList [c] (x :: rest) = some 0 by
          simp [findSubList, List.isPrefixOf, hx]] at h
        simp at h
      · have h' : (findSubList [c] rest).map (· + 1) = none := by
          simpa [findSubList, List.isPrefixOf, Ne.symm hx] using h
        intro hmem
        rcases List.mem_cons.mp hmem with hc | hc
        · exact hx hc.symm
        · exact ih (by simpa using h') hc

theorem splitEqTok_fst_no_eq (tok : List Char) : '=' ∉ (splitEqTok tok).1 := by
  unfold splitEqTok
  cases hf : findSubList ['='] tok with
  | none => exact findSubList_single_none_not_mem hf
  | some i => exact findSubList_single_not_mem_take hf

theorem splitEqTok_renderPair {p : List Char × List Char}
    (h : '=' ∉ p.1) : splitEqTok (renderPair p) = p := by
  unfold renderPair splitEqTok
  by_cases h2 : p.2.isEmpty
  · have h20 : p.2 = [] := by simpa [List.isEmpty_iff] using h2
    rw [if_pos h2, List.append_nil, findSubList_single_of_not_mem h]
    simp [Prod.ext_iff, h20]
  · rw [if_neg h2, findSubList_single_append h]
    have hd : (p.1 ++ '=' :: p.2).drop (p.1.length + 1) = p.2 := by
      rw [show p.1 ++ '=' :: p.2 = (p.1 ++ ['=']) ++ p.2 by simp]
      exact List.drop_left' (by simp)
    simp [Prod.ext_iff, List.take_left, hd]

theorem renderPair_not_mem {c : Char} {p : List Char × List Char}
    (hc : c ≠ '=') (h1 : c ∉ p.1) (h2 : c ∉ p.2) : c ∉ renderPair p := by
  unfold renderPair
  intro hmem
  rcases List.mem_append.mp hmem with hm | hm
  · exact h1 hm
  · by_cases he : p.2.isEmpty
    · rw [if_pos he] at hm; simp at hm
    · rw [if_neg he] at hm
      rcases List.mem_cons.mp hm with hm | hm
      · exact hc hm
      · exact h2 hm

theorem splitEqTok_parts_not_mem {c : Char} {tok : List Char} (h : c ∉ tok) :
    c ∉ (splitEqTok tok).1 ∧ c ∉ (splitEqTok tok).2 := by
  unfold splitEqTok
  cases hf : findSubList ['='] tok with
  | none => exact ⟨h, by simp⟩
  | some i =>
      exact ⟨fun hm => h (List.take_subset i tok hm),
             fun hm => h (List.drop_subset (i + 1) tok hm)⟩

/-- Claim C7 counterexample: for the query `a=&b=1` the code's canonical
query is `a&b=1` — the trailing `=` of the empty-valued parameter is not
preserved — while the claim's full-token sort that preserves the original
encoding yields `a=&b=1`. -/
theorem c7_counterexample :
    specCanonicalQuery "a=&b=1" = "a=&b=1" ∧
    sort_query_string "a=&b=1" = "a&b=1" ∧
    sort_query_string "a=&b=1" ≠ specCanonicalQuery "a=&b=1" := by
  decide

/-- Claim C7 (amended): the canonical query is computed by splitting on
`&`, splitting each token at its first `=` into a `(key, value)` pair,
sorting the pairs lexicographically (key first, then value), and rejoining
with `&`, writing `=` only before non-empty values — so a trailing `=` on
an empty value is dropped, and ordering is by the split pair rather than
by the full token.  Splitting the result back recovers exactly the sorted
pair list, which is sorted and a permutation of the input pairs. -/
theorem c7_sort_query_string (q : String) (hq : q ≠ "") :
    parseQuery (sort_query_string q) =
      (parseQuery q).insertionSort pairLe ∧
    ((parseQuery q).insertionSort pairLe).Sorted pairLe ∧
    ((parseQuery q).insertionSort pairLe).Perm (parseQuery q) := by
  refine ⟨?_, List.sorted_insertionSort pairLe _,
    List.perm_insertionSort pairLe _⟩
  have hperm := List.perm_insertionSort pairLe
    ((splitOnChar '&' q.data).map splitEqTok)
  have hmem : ∀ p ∈ ((splitOnChar '&' q.data).map splitEqTok).insertionSort
      pairLe, ∃ tok ∈ splitOnChar '&' q.data, p = splitEqTok tok := by
    intro p hp
    obtain ⟨tok, htok, heq⟩ := List.mem_map.mp (hperm.subset hp)
    exact ⟨tok, htok, heq.symm⟩
  have hne : ((splitOnChar '&' q.data).map splitEqTok).insertionSort
      pairLe ≠ [] := by
    intro h
    have h2 := hperm
    rw [h] at h2
    have h3 := List.Perm.eq_nil h2.symm
    exact splitOnChar_ne_nil '&' q.data (List.map_eq_nil_iff.mp h3)
  have hamp : ∀ r ∈ (((splitOnChar '&' q.data).map splitEqTok).insertionSort
      pairLe).map renderPair, '&' ∉ r := by
    intro r hr
    obtain ⟨p, hp, hpr⟩ := List.mem_map.mp hr
    obtain ⟨tok, htok, hpt⟩ := hmem p hp
    have hnotok : '&' ∉ tok := splitOnChar_not_mem '&' q.data tok htok
    obtain ⟨ha1, ha2⟩ := splitEqTok_parts_not_mem hnotok
    rw [← hpr, hpt]
    exact renderPair_not_mem (by decide) ha1 ha2
  unfold sort_query_string parseQuery
  rw [if_neg hq]
  show ((splitOnChar '&' (List.intercalate ['&']
      ((((splitOnChar '&' q.data).map splitEqTok).insertionSort
        pairLe).map renderPair))).map splitEqTok) = _
  rw [splitOnChar_intercalate '&' _ (by
      intro h
      exact hne (List.map_eq_nil_iff.mp h)) hamp]
  rw [List.map_map]
  have : ∀ p ∈ ((splitOnChar '&' q.data).map splitEqTok).insertionSort
      pairLe, (splitEqTok ∘ renderPair) p = id p := by
    intro p hp
    obtain ⟨tok, _, hpt⟩ := hmem p hp
    have : '=' ∉ p.1 := by rw [hpt]; exact splitEqTok_fst_no_eq tok
    simpa using splitEqTok_renderPair this
  rw [List.map_congr_left this, List.map_id]

/-- Witness for C7 at a concrete query with duplicate keys and an
empty-valued parameter. -/
theorem c7_sort_query_string_witness :
    parseQuery (sort_query_string "b=2&a=1&a=&c") =
      (parseQuery "b=2&a=1&a=&c").insertionSort pairLe ∧
    ((parseQuery "b=2&a=1&a=&c").insertionSort pairLe).Sorted pairLe ∧
    ((parseQuery "b=2&a=1&a=&c").insertionSort pairLe).Perm
      (parseQuery "b=2&a=1&a=&c") :=
  c7_sort_query_string "b=2&a=1&a=&c" (by decide)

/-! ## Browser model (`model.rs`)

The embedding covers every field the claims observe.  The streaming-
preview handle, its cancel flag and the pagination cancel flag live in
the model too but are written only by `start_streaming_download` /
`cancel_streaming_download` / `set_current_path`, which never touch the
fields below; they are omitted, and the corresponding calls are no-ops
here.  Backend calls (`list_objects`, `get_object`, …) mutate the engine,
not the model, and are likewise dropped; the boolean results the model
branches on (`prioritize_object_request`) are passed in as oracles.
`f64` frecency scores are `ℚ` (exact for all values the code produces). -/

/-- `PathEntry` of `settings.rs`. -/
structure PathEntry where
  path : String
  score : ℚ
  last_accessed : Int
  deriving DecidableEq

/-- `FolderNode` of `model.rs`. -/
structure FolderNode where
  bucket : String
  pfx : String
  objects : List S3Object
  next_continuation_token : String
  is_truncated : Bool
  loading : Bool
  loaded : Bool
  error : String
  sorted_view : List Nat
  folder_count : Nat
  cached_objects_size : Nat
  deriving DecidableEq

/-- `FolderNode::new`. -/
def FolderNode.new (bucket pfx : String) : FolderNode :=
  { bucket := bucket, pfx := pfx, objects := [],
    next_continuation_token := "", is_truncated := false, loading := false,
    loaded := false, error := "", sorted_view := [], folder_count := 0,
    cached_objects_size := 0 }

/-- The `BrowserModel` fields observed by the claims.  `profiles` keeps
only the profile names (the single field the embedded operations read). -/
structure BrowserModel where
  profiles : List String
  selected_profile_idx : Int
  buckets : List S3Bucket
  buckets_loading : Bool
  buckets_error : String
  nodes : List (String × FolderNode)
  current_bucket : String
  current_prefix : String
  selected_bucket : String
  selected_key : String
  selected_file_size : Int
  preview_loading : Bool
  preview_supported : Bool
  preview_content : List Nat
  preview_error : String
  preview_cache : List (String × List Nat)
  pending_object_requests : List String
  last_hovered_file : String
  last_hovered_folder : String
  frecent_paths : List (String × List PathEntry)
  deriving DecidableEq

/-- `BrowserModel::new`. -/
def BrowserModel.new : BrowserModel :=
  { profiles := [], selected_profile_idx := 0, buckets := [],
    buckets_loading := false, buckets_error := "", nodes := [],
    current_bucket := "", current_prefix := "", selected_bucket := "",
    selected_key := "", selected_file_size := 0, preview_loading := false,
    preview_supported := false, preview_content := [], preview_error := "",
    preview_cache := [], pending_object_requests := [],
    last_hovered_file := "", last_hovered_folder := "", frecent_paths := [] }

def make_node_key (bucket pfx : String) : String := bucket ++ "/" ++ pfx

def make_preview_cache_key (bucket key : String) : String :=
  bucket ++ "/" ++ key

/-- `get_or_create_node` (`entry(key).or_insert_with(FolderNode::new)`). -/
def getOrCreateNode (m : BrowserModel) (bucket pfx : String) : BrowserModel :=
  let key := make_node_key bucket pfx
  if (mapFind? m.nodes key).isSome then m
  else { m with nodes := m.nodes ++ [(key, FolderNode.new bucket pfx)] }

/-- Mutate the node stored under `key`, when present. -/
def modifyNode (m : BrowserModel) (key : String) (f : FolderNode → FolderNode) :
    BrowserModel :=
  { m with nodes := m.nodes.map (fun p => if p.1 = key then (p.1, f p.2) else p) }

/-- The extension list of `is_preview_supported`. -/
def supportedExts : List String :=
  [".txt", ".md", ".markdown", ".rst", ".rtf", ".tex", ".log", ".readme",
   ".html", ".htm", ".xhtml", ".xml", ".svg", ".css", ".scss", ".sass",
   ".less", ".json", ".jsonl", ".ndjson", ".yaml", ".yml", ".toml", ".csv",
   ".tsv", ".ini", ".cfg", ".conf", ".properties", ".env", ".c", ".h",
   ".cpp", ".hpp", ".cc", ".hh", ".cxx", ".hxx", ".m", ".mm", ".java",
   ".kt", ".kts", ".scala", ".groovy", ".gradle", ".py", ".pyw", ".pyi",
   ".js", ".mjs", ".cjs", ".jsx", ".ts", ".tsx", ".mts", ".cts", ".rb",
   ".rake", ".gemspec", ".php", ".phtml", ".pl", ".pm", ".pod", ".lua",
   ".r", ".rmd", ".go", ".rs", ".swift", ".zig", ".nim", ".v", ".d", ".hs",
   ".lhs", ".ml", ".mli", ".fs", ".fsi", ".fsx", ".ex", ".exs", ".erl",
   ".hrl", ".clj", ".cljs", ".cljc", ".edn", ".lisp", ".cl", ".el", ".scm",
   ".ss", ".sh", ".bash", ".zsh", ".fish", ".ksh", ".csh", ".tcsh", ".ps1",
   ".psm1", ".psd1", ".bat", ".cmd", ".sql", ".mysql", ".pgsql", ".sqlite",
   ".graphql", ".gql", ".dockerfile", ".tf", ".tfvars", ".hcl", ".cmake",
   ".make", ".makefile", ".mk", ".ninja", ".bazel", ".bzl", ".sbt",
   ".gitignore", ".gitattributes", ".gitmodules", ".editorconfig",
   ".prettierrc", ".eslintrc", ".proto", ".thrift", ".avsc", ".xsd",
   ".dtd", ".wsdl", ".diff", ".patch", ".asm", ".s", ".png", ".jpg",
   ".jpeg", ".gif", ".bmp", ".psd", ".tga", ".hdr", ".pic", ".pnm",
   ".pgm", ".ppm", ".vim", ".vimrc", ".tmux", ".zshrc", ".bashrc",
   ".profile", ".htaccess", ".nginx", ".plist", ".reg"]

/-- `is_preview_supported`: last-dot extension, unwrapping one `.gz` /
`.zst` / `.zstd` compression suffix, checked against the fixed list. -/
def is_preview_supported (key : String) : Bool :=
  match strRfind? key '.' with
  | none => false
  | some dot_pos =>
      let ext := strToLower (strDrop key dot_pos)
      if (ext = ".gz" ∨ ext = ".zst" ∨ ext = ".zstd") ∧ 0 < dot_pos then
        let without := strTake key dot_pos
        match strRfind? without '.' with
        | none => false
        | some inner =>
            supportedExts.contains (strToLower (strDrop without inner))
      else supportedExts.contains ext

/-- `load_more`: only when the node is truncated and not loading; set
`loading` and issue the continuation request (engine side dropped). -/
def load_more (m : BrowserModel) (bucket pfx : String) : BrowserModel :=
  let key := make_node_key bucket pfx
  match mapFind? m.nodes key with
  | none => m
  | some node =>
      if ¬ node.is_truncated ∨ node.loading then m
      else modifyNode m key (fun n => { n with loading := true })

/-- The `ObjectsLoaded` arm of `process_events`: replace the node's object
list on an initial page, append with key-level dedup against the keys
already present on a continuation page, update pagination metadata, then —
for the current folder — auto-issue `load_more` when truncated (the
visible-sub-folder prefetch touches only the engine). -/
def processObjectsLoaded (m : BrowserModel) (bucket pfx token : String)
    (objects : List S3Object) (next_token : String) (is_truncated : Bool) :
    BrowserModel :=
  let key := make_node_key bucket pfx
  let m1 := getOrCreateNode m bucket pfx
  let m2 := modifyNode m1 key (fun node =>
    let objects1 :=
      if token = "" then objects
      else node.objects ++ objects.filter
        (fun o => !((node.objects.map S3Object.key).contains o.key))
    { node with
      objects := objects1,
      next_continuation_token := next_token,
      is_truncated := is_truncated,
      loading := false,
      loaded := true,
      error := "" })
  if bucket = m2.current_bucket ∧ pfx = m2.current_prefix then
    if is_truncated then load_more m2 bucket pfx else m2
  else m2

/-- `process_events` (one event).  `ObjectRangeLoaded` feeds the streaming
preview, which is outside the modelled state. -/
def processEvent (m : BrowserModel) (e : StateEvent) : BrowserModel :=
  match e with
  | .bucketsLoaded buckets =>
      { m with
        buckets := buckets,
        buckets_loading := false,
        buckets_error := "" }
  | .bucketsLoadError msg =>
      { m with buckets_loading := false, buckets_error := msg }
  | .objectsLoaded bucket pfx token objects next_token is_truncated =>
      processObjectsLoaded m bucket pfx token objects next_token is_truncated
  | .objectsLoadError bucket pfx msg =>
      let m1 := getOrCreateNode m bucket pfx
      modifyNode m1 (make_node_key bucket pfx)
        (fun n => { n with loading := false, error := msg })
  | .objectContentLoaded bucket key content =>
      let cache_key := make_preview_cache_key bucket key
      let m1 := { m with
        preview_cache := mapInsert m.preview_cache cache_key content,
        pending_object_requests :=
          m.pending_object_requests.filter (fun x => !(x == cache_key)) }
      if bucket = m1.selected_bucket ∧ key = m1.selected_key then
        { m1 with
          preview_content := content,
          preview_loading := false,
          preview_error := "" }
      else m1
  | .objectContentLoadError bucket key msg =>
      let cache_key := make_preview_cache_key bucket key
      let m1 := { m with
        pending_object_requests :=
          m.pending_object_requests.filter (fun x => !(x == cache_key)) }
      if bucket = m1.selected_bucket ∧ key = m1.selected_key then
        { m1 with preview_loading := false, preview_error := msg }
      else m1
  | .objectRangeLoaded _ _ _ _ _ => m
  | .objectRangeLoadError _ _ _ _ => m

/-- `select_file`.  `boosted` is the engine's answer to
`prioritize_object_request` (the hover prefetch was found and promoted). -/
def select_file (m : BrowserModel) (bucket key : String) (boosted : Bool) :
    BrowserModel :=
  if m.selected_bucket = bucket ∧ m.selected_key = key then m
  else
    let supported := is_preview_supported key
    let size :=
      match mapFind? m.nodes (make_node_key m.current_bucket m.current_prefix)
      with
      | some node =>
          ((node.objects.find? (fun o => !o.is_folder && o.key == key)).map
            S3Object.size).getD 0
      | none => 0
    let m1 := { m with
      selected_bucket := bucket,
      selected_key := key,
      preview_content := [],
      preview_error := "",
      preview_supported := supported,
      selected_file_size := size }
    if supported then
      let cache_key := make_preview_cache_key bucket key
      match mapFind? m1.preview_cache cache_key with
      | some content =>
          { m1 with preview_content := content, preview_loading := false }
      | none =>
          if boosted then { m1 with preview_loading := true }
          else
            { m1 with
              preview_loading := true,
              pending_object_requests :=
                if m1.pending_object_requests.contains cache_key then
                  m1.pending_object_requests
                else m1.pending_object_requests ++ [cache_key] }
    else { m1 with preview_loading := false }

/-- `prefetch_file_preview`: skip unsupported keys, cached keys, the
current selection and a repeated hover; otherwise remember the hover and
issue a cancellable low-priority GetObject (engine side dropped). -/
def prefetch_file_preview (m : BrowserModel) (bucket key : String) :
    BrowserModel :=
  if ¬ is_preview_supported key then m
  else
    let cache_key := make_preview_cache_key bucket key
    if (mapFind? m.preview_cache cache_key).isSome then m
    else if m.selected_bucket = bucket ∧ m.selected_key = key then m
    else if m.last_hovered_file = cache_key then m
    else { m with last_hovered_file := cache_key }

/-! ## Preview cache behaviour (C1) -/

/-- The operations the C1 claim ranges over: `select_file`,
`prefetch_file_preview`, and an applied `ObjectContentLoaded` event. -/
inductive PreviewOp where
  | select (bucket key : String) (boosted : Bool)
  | hover (bucket key : String)
  | loaded (bucket key : String) (content : List Nat)
  deriving DecidableEq

def previewStep (m : BrowserModel) (op : PreviewOp) : BrowserModel :=
  match op with
  | .select b k boosted => select_file m b k boosted
  | .hover b k => prefetch_file_preview m b k
  | .loaded b k content => processEvent m (.objectContentLoaded b k content)

/-- The cache key an operation inserts, if any. -/
def previewOpKey? : PreviewOp → Option String
  | .loaded b k _ => some (make_preview_cache_key b k)
  | _ => none

theorem select_file_preview_cache (m : BrowserModel) (bucket key : String)
    (boosted : Bool) :
    (select_file m bucket key boosted).preview_cache = m.preview_cache := by
  unfold select_file
  repeat' (first | rfl | split | dsimp only)

theorem prefetch_file_preview_preview_cache (m : BrowserModel)
    (bucket key : String) :
    (prefetch_file_preview m bucket key).preview_cache = m.preview_cache := by
  unfold prefetch_file_preview
  repeat' (first | rfl | split | dsimp only)

theorem processEvent_contentLoaded_preview_cache (m : BrowserModel)
    (bucket key : String) (content : List Nat) :
    (processEvent m (.objectContentLoaded bucket key content)).preview_cache =
      mapInsert m.preview_cache (make_preview_cache_key bucket key) content := by
  unfold processEvent
  dsimp only
  split <;> rfl

theorem mapFind?_mapInsert_isSome {α : Type} (m : List (String × α))
    (k k' : String) (v : α) :
    (mapFind? (mapInsert m k v) k').isSome ↔
      k' = k ∨ (mapFind? m k').isSome := by
  induction m with
  | nil =>
      by_cases h : k = k'
      · simp [mapInsert, mapFind?, h]
      · simp [mapInsert, mapFind?, h, Ne.symm h]
  | cons p rest ih =>
      by_cases hp : p.1 = k
      · by_cases hk : k = k'
        · simp [mapInsert, mapFind?, hp, hk]
        · simp [mapInsert, mapFind?, hp, hk, Ne.symm hk]
      · by_cases hpk : p.1 = k'
        · have : k' ≠ k := fun he => hp (hpk.trans he)
          simp [mapInsert, mapFind?, hp, hpk, this]
        · simp [mapInsert, mapFind?, hp, hpk, ih]

/-- Claim C1 (amended): the preview cache never evicts.  Over any sequence
of `select_file` / `prefetch_file_preview` commands and applied
`ObjectContentLoaded` events, a key is cached in the final state exactly
when it was cached initially or some event in the sequence loaded it —
so the selected key (like every other key) is never evicted, and the
cache size is bounded only by the number of distinct loaded keys, not by
`N ≈ 50`. -/
theorem c1_preview_cache_no_eviction (m : BrowserModel)
    (ops : List PreviewOp) (ck : String) :
    (mapFind? (ops.foldl previewStep m).preview_cache ck).isSome ↔
      (mapFind? m.preview_cache ck).isSome ∨
        ck ∈ ops.filterMap previewOpKey? := by
  induction ops generalizing m with
  | nil => simp
  | cons op rest ih =>
      simp only [List.foldl_cons]
      rw [ih]
      cases op with
      | select b k boosted =>
          simp [previewStep, select_file_preview_cache, previewOpKey?,
            List.filterMap_cons]
      | hover b k =>
          simp [previewStep, prefetch_file_preview_preview_cache,
            previewOpKey?, List.filterMap_cons]
      | loaded b k content =>
          simp only [previewStep, processEvent_contentLoaded_preview_cache,
            mapFind?_mapInsert_isSome, previewOpKey?, List.filterMap_cons,
            List.mem_cons]
          tauto

/-- Distinct supported keys for the counterexample run. -/
def c1Key (i : Nat) : String :=
  ⟨['k', Nat.digitChar (i / 10), Nat.digitChar (i % 10), '.', 't', 'x', 't']⟩

/-- A realistic operation sequence: hover-prefetch each key, then apply
the `ObjectContentLoaded` event the prefetch produces. -/
def c1Ops : List PreviewOp :=
  ((List.range 101).map (fun i =>
    [PreviewOp.hover "b" (c1Key i), PreviewOp.loaded "b" (c1Key i) []])).flatten

set_option maxRecDepth 100000 in
/-- Claim C1 counterexample: after prefetching and loading 101 distinct
keys the preview cache holds 101 entries — no eviction bounds it at
`N ≈ 50`. -/
theorem c1_counterexample :
    ((c1Ops.foldl previewStep BrowserModel.new).preview_cache).length = 101 := by
  decide

/-! ## Pagination dedup (C5) -/

/-- First-occurrence dedup by key, with `seen` the keys already taken. -/
def dedupGo (seen : List String) : List S3Object → List S3Object
  | [] => []
  | o :: rest =>
      if seen.contains o.key then dedupGo seen rest
      else o :: dedupGo (o.key :: seen) rest

/-- Keep the first object carrying each key. -/
def dedupByKeyFirst (l : List S3Object) : List S3Object := dedupGo [] l

theorem contains_of_mem {l : List String} {k : String} (h : k ∈ l) :
    l.contains k = true := by
  simp only [List.contains]
  exact List.elem_iff.mpr h

theorem not_contains_of_not_mem {l : List String} {k : String} (h : k ∉ l) :
    ¬ l.contains k = true := by
  simp [List.contains, List.elem_iff, h]

theorem contains_congr {A B : List String}
    (h : ∀ k, k ∈ A ↔ k ∈ B) (x : String) : A.contains x = B.contains x := by
  simp only [List.contains]
  by_cases hx : x ∈ A
  · rw [List.elem_iff.mpr hx, List.elem_iff.mpr ((h x).mp hx)]
  · have hxB : x ∉ B := fun hb => hx ((h x).mpr hb)
    cases hA : List.elem x A with
    | true => exact absurd (List.elem_iff.mp hA) hx
    | false =>
        cases hB : List.elem x B with
        | true => exact absurd (List.elem_iff.mp hB) hxB
        | false => rfl

theorem dedupGo_congr :
    ∀ (l : List S3Object) {s1 s2 : List String},
      (∀ k, k ∈ s1 ↔ k ∈ s2) → dedupGo s1 l = dedupGo s2 l := by
  intro l
  induction l with
  | nil => intro s1 s2 _; simp [dedupGo]
  | cons o rest ih =>
      intro s1 s2 h
      simp only [dedupGo, contains_congr h o.key]
      by_cases hc : o.key ∈ s2
      · rw [if_pos (contains_of_mem hc), if_pos (contains_of_mem hc)]
        exact ih h
      · rw [if_neg (not_contains_of_not_mem hc),
          if_neg (not_contains_of_not_mem hc)]
        congr 1
        refine ih ?_
        intro k
        simp only [List.mem_cons]
        exact or_congr Iff.rfl (h k)

theorem dedupGo_key_mem :
    ∀ (l : List S3Object) (seen : List String) (k : String),
      k ∈ (dedupGo seen l).map S3Object.key ↔
        k ∈ l.map S3Object.key ∧ k ∉ seen := by
  intro l
  induction l with
  | nil => intro seen k; simp [dedupGo]
  | cons o rest ih =>
      intro seen k
      by_cases hc : o.key ∈ seen
      · rw [dedupGo, if_pos (contains_of_mem hc), ih]
        simp only [List.map_cons, List.mem_cons]
        constructor
        · rintro ⟨hm, hns⟩
          exact ⟨Or.inr hm, hns⟩
        · rintro ⟨hm | hm, hns⟩
          · exact absurd (hm ▸ hc) hns
          · exact ⟨hm, hns⟩
      · rw [dedupGo, if_neg (not_contains_of_not_mem hc)]
        simp only [List.map_cons, List.mem_cons, ih]
        constructor
        · rintro (heq | ⟨hm, hns⟩)
          · exact ⟨Or.inl heq, heq ▸ hc⟩
          · exact ⟨Or.inr hm, fun hs => hns (Or.inr hs)⟩
        · rintro ⟨hm | hm, hns⟩
          · exact Or.inl hm
          · by_cases hk : k = o.key
            · exact Or.inl hk
            · exact Or.inr ⟨hm, by simp [hk, hns]⟩

theorem dedupGo_append :
    ∀ (S L : List S3Object) (seen : List String),
      dedupGo seen (S ++ L) =
        dedupGo seen S ++ dedupGo (S.map S3Object.key ++ seen) L := by
  intro S
  induction S with
  | nil => intro L seen; simp [dedupGo]
  | cons o S ih =>
      intro L seen
      by_cases hc : o.key ∈ seen
      · simp only [List.cons_append, dedupGo, if_pos (contains_of_mem hc),
          List.append_eq]
        rw [ih]
        congr 1
        apply dedupGo_congr
        intro k
        simp only [List.mem_append, List.map_cons, List.mem_cons]
        constructor
        · tauto
        · rintro ((heq | hk) | hs)
          · exact Or.inr (heq ▸ hc)
          · exact Or.inl hk
          · exact Or.inr hs
      · simp only [List.cons_append, dedupGo,
          if_neg (not_contains_of_not_mem hc), List.append_eq]
        rw [ih]
        simp only [List.map_cons, List.cons_append]
        congr 2
        apply dedupGo_congr
        intro k
        simp only [List.mem_append, List.map_cons, List.mem_cons]
        tauto

theorem dedupGo_eq_filter :
    ∀ (l : List S3Object) (seen : List String),
      (l.map S3Object.key).Nodup →
      dedupGo seen l = l.filter (fun o => !(seen.contains o.key)) := by
  intro l
  induction l with
  | nil => intro seen _; simp [dedupGo]
  | cons o rest ih =>
      intro seen hnd
      simp only [List.map_cons, List.nodup_cons] at hnd
      obtain ⟨hno, hnd⟩ := hnd
      by_cases hc : o.key ∈ seen
      · rw [dedupGo, if_pos (contains_of_mem hc), List.filter_cons,
          ih seen hnd]
        simp [contains_of_mem hc, hc]
      · rw [dedupGo, if_neg (not_contains_of_not_mem hc), List.filter_cons,
          ih (o.key :: seen) hnd]
        have hb0 : seen.contains o.key = false :=
          Bool.not_eq_true _ ▸ Bool.of_not_eq_true (not_contains_of_not_mem hc)
        have hfilter : rest.filter
            (fun x => !((o.key :: seen).contains x.key)) =
            rest.filter (fun x => !(seen.contains x.key)) := by
          apply List.filter_congr
          intro x hx
          have hxk : x.key ≠ o.key := by
            intro he
            exact hno (he ▸ List.mem_map_of_mem S3Object.key hx)
          simp [List.contains, hxk]
        rw [hfilter]
        simp [hb0, hc]

theorem dedupGo_keys_nodup :
    ∀ (l : List S3Object) (seen : List String),
      ((dedupGo seen l).map S3Object.key).Nodup := by
  intro l
  induction l with
  | nil => intro seen; simp [dedupGo]
  | cons o rest ih =>
      intro seen
      by_cases hc : o.key ∈ seen
      · rw [dedupGo, if_pos (contains_of_mem hc)]
        exact ih seen
      · rw [dedupGo, if_neg (not_contains_of_not_mem hc)]
        simp only [List.map_cons, List.nodup_cons]
        refine ⟨?_, ih (o.key :: seen)⟩
        intro hm
        exact ((dedupGo_key_mem rest (o.key :: seen) o.key).mp hm).2
          (List.mem_cons_self _ _)

theorem mapFind?_map_if (nodes : List (String × FolderNode))
    (key k' : String) (f : FolderNode → FolderNode) :
    mapFind? (nodes.map (fun p => if p.1 = key then (p.1, f p.2) else p)) k' =
      if key = k' then (mapFind? nodes k').map f else mapFind? nodes k' := by
  induction nodes with
  | nil => by_cases h : key = k' <;> simp [mapFind?, h]
  | cons p rest ih =>
      by_cases hp : p.1 = key
      · by_cases hk : key = k'
        · simp [mapFind?, hp, hk, ih]
        · have : ¬ p.1 = k' := fun he => hk (hp ▸ he)
          simp [mapFind?, hp, hk, this, ih]
      · by_cases hpk : p.1 = k'
        · by_cases hk : key = k'
          · exact absurd (hk ▸ hpk : p.1 = key) hp
          · have hk' : ¬ k' = key := fun he => hk he.symm
            simp [mapFind?, hp, hpk, hk, hk']
        · simp [mapFind?, hp, hpk, ih]

theorem mapFind?_append_single {α : Type} (l : List (String × α))
    (k : String) (v : α) (h : mapFind? l k = none) :
    mapFind? (l ++ [(k, v)]) k = some v := by
  induction l with
  | nil => simp [mapFind?]
  | cons p rest ih =>
      by_cases hp : p.1 = k
      · simp [mapFind?, hp] at h
      · simp only [mapFind?, hp] at h
        simp [mapFind?, hp, ih h]

/-- The node lookup after `get_or_create_node`: the existing node, or a
fresh `FolderNode::new`. -/
theorem mapFind?_getOrCreateNode (m : BrowserModel) (b p : String) :
    mapFind? (getOrCreateNode m b p).nodes (make_node_key b p) =
      some ((mapFind? m.nodes (make_node_key b p)).getD (FolderNode.new b p)) := by
  unfold getOrCreateNode
  cases hf : mapFind? m.nodes (make_node_key b p) with
  | some n => simp [hf]
  | none => simp [hf, mapFind?_append_single _ _ _ hf]

/-- The objects held by the folder node for `(b, p)` (empty when the node
does not exist yet). -/
def nodeObjects (m : BrowserModel) (b p : String) : List S3Object :=
  ((mapFind? m.nodes (make_node_key b p)).map FolderNode.objects).getD []

theorem nodeObjects_modifyNode_eq (m : BrowserModel) (key : String)
    (f : FolderNode → FolderNode) (b p : String) :
    nodeObjects (modifyNode m key f) b p =
      if key = make_node_key b p then
        ((mapFind? m.nodes (make_node_key b p)).map
          (fun n => (f n).objects)).getD []
      else nodeObjects m b p := by
  show ((mapFind? (m.nodes.map (fun q => if q.1 = key then (q.1, f q.2) else q))
      (make_node_key b p)).map FolderNode.objects).getD [] = _
  rw [mapFind?_map_if]
  by_cases hk : key = make_node_key b p
  · rw [if_pos hk, if_pos hk]
    cases mapFind? m.nodes (make_node_key b p) <;> rfl
  · rw [if_neg hk, if_neg hk]
    rfl

theorem nodeObjects_modifyNode_preserve (m : BrowserModel) (key : String)
    (f : FolderNode → FolderNode) (hf : ∀ n, (f n).objects = n.objects)
    (b p : String) :
    nodeObjects (modifyNode m key f) b p = nodeObjects m b p := by
  rw [nodeObjects_modifyNode_eq]
  by_cases hk : key = make_node_key b p
  · rw [if_pos hk]
    unfold nodeObjects
    cases mapFind? m.nodes (make_node_key b p) <;> simp [hf]
  · rw [if_neg hk]

theorem nodeObjects_load_more (m : BrowserModel) (b p b' p' : String) :
    nodeObjects (load_more m b p) b' p' = nodeObjects m b' p' := by
  unfold load_more
  dsimp only
  cases mapFind? m.nodes (make_node_key b p) with
  | none => rfl
  | some node =>
      dsimp only
      split
      · rfl
      · exact nodeObjects_modifyNode_preserve m (make_node_key b p)
          (fun n => { n with loading := true }) (fun n => rfl) b' p'

/-- The object list produced by the `ObjectsLoaded` arm: replacement on an
initial page, dedup-append against the pre-event keys on a continuation
page. -/
theorem nodeObjects_processObjectsLoaded (m : BrowserModel)
    (b p tok : String) (objs : List S3Object) (ntok : String) (tr : Bool) :
    nodeObjects (processObjectsLoaded m b p tok objs ntok tr) b p =
      if tok = "" then objs
      else nodeObjects m b p ++ objs.filter
        (fun o => !(((nodeObjects m b p).map S3Object.key).contains o.key)) := by
  unfold processObjectsLoaded
  dsimp only
  have hprev : nodeObjects m b p =
      ((mapFind? m.nodes (make_node_key b p)).getD (FolderNode.new b p)).objects := by
    unfold nodeObjects
    cases mapFind? m.nodes (make_node_key b p) with
    | none => rfl
    | some n => rfl
  have hmid : ∀ (mm : BrowserModel), nodeObjects
      (modifyNode (getOrCreateNode m b p) (make_node_key b p)
        (fun node =>
          { node with
            objects :=
              if tok = "" then objs
              else node.objects ++ objs.filter
                (fun o => !((node.objects.map S3Object.key).contains o.key)),
            next_continuation_token := ntok,
            is_truncated := tr,
            loading := false,
            loaded := true,
            error := "" })) b p =
      if tok = "" then objs
      else nodeObjects m b p ++ objs.filter
        (fun o => !(((nodeObjects m b p).map S3Object.key).contains o.key)) := by
    intro _
    rw [nodeObjects_modifyNode_eq, if_pos rfl, mapFind?_getOrCreateNode]
    rw [hprev]
    rfl
  have hmid2 := hmid m
  revert hmid2
  generalize (modifyNode (getOrCreateNode m b p) (make_node_key b p)
    (fun node =>
      { node with
        objects :=
          if tok = "" then objs
          else node.objects ++ objs.filter
            (fun o => !((node.objects.map S3Object.key).contains o.key)),
        next_continuation_token := ntok,
        is_truncated := tr,
        loading := false,
        loaded := true,
        error := "" })) = m2
  intro hmid2
  by_cases hcur : b = m2.current_bucket ∧ p = m2.current_prefix
  · rw [if_pos hcur]
    by_cases htr : tr = true
    · rw [if_pos htr, nodeObjects_load_more]
      exact hmid2
    · rw [if_neg htr]
      exact hmid2
  · rw [if_neg hcur]
    exact hmid2

/-- One `ObjectsLoaded` page as delivered by the engine. -/
structure ObjectsPage where
  token : String
  objects : List S3Object
  next_token : String
  is_truncated : Bool
  deriving DecidableEq

/-- Apply a sequence of `ObjectsLoaded` events for the same folder. -/
def applyPages (m : BrowserModel) (b p : String) (pages : List ObjectsPage) :
    BrowserModel :=
  pages.foldl (fun acc pg => processEvent acc
    (.objectsLoaded b p pg.token pg.objects pg.next_token pg.is_truncated)) m

theorem processEvent_objectsLoaded_eq (m : BrowserModel)
    (b p tok : String) (objs : List S3Object) (ntok : String) (tr : Bool) :
    processEvent m (.objectsLoaded b p tok objs ntok tr) =
      processObjectsLoaded m b p tok objs ntok tr := rfl

theorem dedupByKeyFirst_of_nodup (l : List S3Object)
    (h : (l.map S3Object.key).Nodup) : dedupByKeyFirst l = l := by
  unfold dedupByKeyFirst
  rw [dedupGo_eq_filter l [] h]
  simp [List.contains]

/-- Appending a continuation page that is internally duplicate-free, with
dedup against the current (already first-occurrence-deduplicated) objects,
extends the first-occurrence dedup of the accumulated stream. -/
theorem dedup_append_page (acc B : List S3Object)
    (hB : (B.map S3Object.key).Nodup) :
    dedupByKeyFirst acc ++ B.filter
        (fun o => !(((dedupByKeyFirst acc).map S3Object.key).contains o.key)) =
      dedupByKeyFirst (acc ++ B) := by
  unfold dedupByKeyFirst
  rw [dedupGo_append]
  congr 1
  rw [dedupGo_eq_filter B (acc.map S3Object.key ++ []) hB]
  apply List.filter_congr
  intro o _
  congr 1
  apply contains_congr
  intro k
  rw [dedupGo_key_mem]
  simp

theorem foldlPages_nodeObjects (b p : String) :
    ∀ (pages : List ObjectsPage) (m : BrowserModel) (acc : List S3Object),
      nodeObjects m b p = dedupByKeyFirst acc →
      (∀ pg ∈ pages, pg.token ≠ "") →
      (∀ pg ∈ pages, (pg.objects.map S3Object.key).Nodup) →
      nodeObjects (applyPages m b p pages) b p =
        dedupByKeyFirst (acc ++ (pages.map ObjectsPage.objects).flatten) := by
  intro pages
  induction pages with
  | nil => intro m acc hm _ _; simpa [applyPages] using hm
  | cons pg rest ih =>
      intro m acc hm htok hnd
      have htokpg : pg.token ≠ "" := htok pg (List.mem_cons_self _ _)
      have hndpg : (pg.objects.map S3Object.key).Nodup :=
        hnd pg (List.mem_cons_self _ _)
      have hstep : nodeObjects (processEvent m
          (.objectsLoaded b p pg.token pg.objects pg.next_token
            pg.is_truncated)) b p = dedupByKeyFirst (acc ++ pg.objects) := by
        rw [processEvent_objectsLoaded_eq, nodeObjects_processObjectsLoaded,
          if_neg htokpg, hm, dedup_append_page acc pg.objects hndpg]
      have hrec := ih (processEvent m
          (.objectsLoaded b p pg.token pg.objects pg.next_token
            pg.is_truncated)) (acc ++ pg.objects) hstep
        (fun q hq => htok q (List.mem_cons_of_mem _ hq))
        (fun q hq => hnd q (List.mem_cons_of_mem _ hq))
      calc nodeObjects (applyPages m b p (pg :: rest)) b p
          = nodeObjects (applyPages (processEvent m
              (.objectsLoaded b p pg.token pg.objects pg.next_token
                pg.is_truncated)) b p rest) b p := rfl
        _ = dedupByKeyFirst ((acc ++ pg.objects) ++
              (rest.map ObjectsPage.objects).flatten) := hrec
        _ = dedupByKeyFirst (acc ++
              ((pg :: rest).map ObjectsPage.objects).flatten) := by
              simp [List.append_assoc]

/-- Claim C5 (amended): an initial `ObjectsLoaded` page (empty token)
replaces the node's objects and each continuation page (non-empty token)
appends only objects whose key is absent; provided every individual page
is internally free of duplicate keys, the resulting object list is the
first-occurrence dedup of the concatenated pages, and in particular each
key occurs exactly once. (The internal-nodup proviso is the amendment:
the arm dedups only against keys present before the event, so a page that
repeats a key within itself introduces duplicates.) -/
theorem c5_dedup_on_pagination (m : BrowserModel) (b p : String)
    (p0 : ObjectsPage) (rest : List ObjectsPage)
    (h0 : p0.token = "")
    (hrest : ∀ pg ∈ rest, pg.token ≠ "")
    (hnd : ∀ pg ∈ p0 :: rest, (pg.objects.map S3Object.key).Nodup) :
    nodeObjects (applyPages m b p (p0 :: rest)) b p =
        dedupByKeyFirst (((p0 :: rest).map ObjectsPage.objects).flatten) ∧
      ((nodeObjects (applyPages m b p (p0 :: rest)) b p).map
        S3Object.key).Nodup := by
  have hnd0 : (p0.objects.map S3Object.key).Nodup :=
    hnd p0 (List.mem_cons_self _ _)
  have hstep0 : nodeObjects (processEvent m
      (.objectsLoaded b p p0.token p0.objects p0.next_token
        p0.is_truncated)) b p = dedupByKeyFirst p0.objects := by
    rw [processEvent_objectsLoaded_eq, nodeObjects_processObjectsLoaded,
      if_pos h0, dedupByKeyFirst_of_nodup p0.objects hnd0]
  have hmain := foldlPages_nodeObjects b p rest (processEvent m
      (.objectsLoaded b p p0.token p0.objects p0.next_token
        p0.is_truncated)) p0.objects hstep0 hrest
    (fun q hq => hnd q (List.mem_cons_of_mem _ hq))
  have heq : nodeObjects (applyPages m b p (p0 :: rest)) b p =
      dedupByKeyFirst (((p0 :: rest).map ObjectsPage.objects).flatten) := by
    calc nodeObjects (applyPages m b p (p0 :: rest)) b p
        = nodeObjects (applyPages (processEvent m
            (.objectsLoaded b p p0.token p0.objects p0.next_token
              p0.is_truncated)) b p rest) b p := rfl
      _ = dedupByKeyFirst (p0.objects ++
            (rest.map ObjectsPage.objects).flatten) := hmain
      _ = dedupByKeyFirst (((p0 :: rest).map ObjectsPage.objects).flatten) := by
            simp
  exact ⟨heq, heq ▸ dedupGo_keys_nodup _ []⟩

/-- Concrete pages for the C5 witness: the continuation page repeats the
key `b` already delivered on the initial page. -/
def c5Pg0 : ObjectsPage :=
  ⟨"", [⟨"a", "a", 1, "", false⟩, ⟨"b", "b", 1, "", false⟩], "T", true⟩

def c5Pg1 : ObjectsPage :=
  ⟨"T", [⟨"b", "b2", 9, "", false⟩, ⟨"c", "c", 2, "", false⟩], "", false⟩

/-- C5 witness: two pages with an overlapping key, each internally
duplicate-free. -/
theorem c5_dedup_on_pagination_witness :
    nodeObjects (applyPages BrowserModel.new "b" "" [c5Pg0, c5Pg1]) "b" "" =
        dedupByKeyFirst (([c5Pg0, c5Pg1].map ObjectsPage.objects).flatten) ∧
      ((nodeObjects (applyPages BrowserModel.new "b" "" [c5Pg0, c5Pg1])
        "b" "").map S3Object.key).Nodup :=
  c5_dedup_on_pagination BrowserModel.new "b" "" c5Pg0 [c5Pg1]
    (by decide) (by decide) (by decide)

/-! ## Frecency (C8) -/

/-- `frecency_score` of `model.rs`: the stored score weighted by an age
bucket. -/
def frecency_score (entry : PathEntry) (now : Int) : ℚ :=
  let age := now - entry.last_accessed
  let weight : ℚ :=
    if age < 3600 then 4
    else if age < 86400 then 2
    else if age < 604800 then 1
    else (1 : ℚ) / 2
  entry.score * weight

/-- The profile name `record_recent_path` and `top_frecent_paths` resolve:
`profiles[selected_profile_idx].name` when the index is in bounds. -/
def selectedProfileName? (m : BrowserModel) : Option String :=
  if 0 ≤ m.selected_profile_idx ∧
      m.selected_profile_idx.toNat < m.profiles.length then
    some (m.profiles.getD m.selected_profile_idx.toNat "")
  else none

/-- `entries.iter_mut().find(|e| e.path == path)` followed by the in-place
`score + 1` / `last_accessed = now` update: bump the first entry whose
path matches, or report `none`. -/
def bumpFirst (now : Int) (path : String) : List PathEntry → Option (List PathEntry)
  | [] => none
  | e :: rest =>
      if e.path = path then
        some ({ e with score := e.score + 1, last_accessed := now } :: rest)
      else (bumpFirst now path rest).map (fun l => e :: l)

/-- Descending comparison by stored score, the order of the `> 500` trim
(`sort_by(|a, b| b.score.partial_cmp(&a.score))`, a stable sort). -/
abbrev entryScoreGe (a b : PathEntry) : Prop := b.score ≤ a.score

/-- `record_recent_path` of `model.rs`, with the wall clock passed in. -/
def record_recent_path (m : BrowserModel) (path : String) (now : Int) :
    BrowserModel :=
  if path = "" ∨ path = "s3://" then m
  else
    match selectedProfileName? m with
    | none => m
    | some pname =>
        if pname = "" then m
        else
          let entries := (mapFind? m.frecent_paths pname).getD []
          let entries2 :=
            match bumpFirst now path entries with
            | some l => l
            | none => entries ++ [⟨path, 1, now⟩]
          let entries3 :=
            if 500 < entries2.length then
              (List.insertionSort entryScoreGe entries2).take 500
            else entries2
          { m with frecent_paths := mapInsert m.frecent_paths pname entries3 }

/-- Descending comparison by frecency score on the `(score, index)` pairs
handed to `select_nth_unstable_by`. -/
abbrev scoreGe (a b : ℚ × Nat) : Prop := b.1 ≤ a.1

instance : IsTotal (ℚ × Nat) scoreGe := ⟨fun a b => le_total b.1 a.1⟩

instance : IsTrans (ℚ × Nat) scoreGe := ⟨fun _ _ _ hab hbc => hbc.trans hab⟩

/-- `top_frecent_paths` of `model.rs`, parameterized by the selection
procedure `sel` standing for `select_nth_unstable_by` (library code
outside this crate; `SelSpec` below is its documented contract). -/
def top_frecent_paths (m : BrowserModel)
    (sel : List (ℚ × Nat) → Nat → List (ℚ × Nat)) (count : Nat) (now : Int) :
    List String :=
  match selectedProfileName? m with
  | none => []
  | some pname =>
      match mapFind? m.frecent_paths pname with
      | none => []
      | some entries =>
          if entries = [] then []
          else
            let scored := entries.enum.map
              (fun p => (frecency_score p.2 now, p.1))
            let n := min count scored.length
            let scored2 := sel scored (n - 1)
            (scored2.take n).map
              (fun p => (entries.getD p.2 ⟨"", 0, 0⟩).path)

/-- The documented contract of `select_nth_unstable_by` under the
descending-by-score comparator: the result is a permutation of the input
and, at the requested index, every earlier element scores at least the
pivot and every later element at most the pivot.  (Nothing promises the
prefix itself is sorted.) -/
structure SelSpec (sel : List (ℚ × Nat) → Nat → List (ℚ × Nat)) : Prop where
  perm : ∀ l k, (sel l k).Perm l
  part : ∀ l k, k < l.length → ∃ piv rest,
    (sel l k).drop k = piv :: rest ∧
    (∀ x ∈ (sel l k).take k, piv.1 ≤ x.1) ∧
    (∀ x ∈ rest, x.1 ≤ piv.1)

/-- Fully sorting descending satisfies the contract; so does `sel₀` below,
which reverses the prefix in front of the pivot. -/
def sortScoreDesc (l : List (ℚ × Nat)) : List (ℚ × Nat) :=
  List.insertionSort scoreGe l

def sel₀ (l : List (ℚ × Nat)) (k : Nat) : List (ℚ × Nat) :=
  ((sortScoreDesc l).take k).reverse ++ (sortScoreDesc l).drop k

theorem sortScoreDesc_sorted (l : List (ℚ × Nat)) :
    (sortScoreDesc l).Sorted scoreGe := List.sorted_insertionSort scoreGe l

theorem sortScoreDesc_perm (l : List (ℚ × Nat)) :
    (sortScoreDesc l).Perm l := List.perm_insertionSort scoreGe l

theorem selSpec_sel₀ : SelSpec sel₀ := by
  refine ⟨?_, ?_⟩
  · intro l k
    have h1 : (((sortScoreDesc l).take k).reverse ++
        (sortScoreDesc l).drop k).Perm
        ((sortScoreDesc l).take k ++ (sortScoreDesc l).drop k) :=
      List.Perm.append_right _ (List.reverse_perm _)
    have h2 : (sortScoreDesc l).take k ++ (sortScoreDesc l).drop k =
        sortScoreDesc l := List.take_append_drop k _
    have h3 : ((sortScoreDesc l).take k ++ (sortScoreDesc l).drop k).Perm
        (sortScoreDesc l) := by rw [h2]
    exact (h1.trans h3).trans (sortScoreDesc_perm l)
  · intro l k hk
    have hk' : k < (sortScoreDesc l).length := by
      rw [(sortScoreDesc_perm l).length_eq]; exact hk
    have hlenA : (((sortScoreDesc l).take k).reverse).length = k := by
      rw [List.length_reverse, List.length_take]
      exact min_eq_left (le_of_lt hk')
    have hs2 : List.Pairwise scoreGe
        ((sortScoreDesc l).take k ++ (sortScoreDesc l).drop k) := by
      rw [List.take_append_drop]
      exact sortScoreDesc_sorted l
    rw [List.drop_eq_getElem_cons hk'] at hs2
    rw [List.pairwise_append] at hs2
    refine ⟨(sortScoreDesc l)[k], (sortScoreDesc l).drop (k + 1), ?_, ?_, ?_⟩
    · unfold sel₀
      rw [List.drop_left' hlenA]
      exact List.drop_eq_getElem_cons hk'
    · intro x hx
      unfold sel₀ at hx
      rw [List.take_left' hlenA, List.mem_reverse] at hx
      exact hs2.2.2 x hx _ (List.mem_cons_self _ _)
    · intro x hx
      rw [List.pairwise_cons] at hs2
      exact hs2.2.1.1 x hx

theorem bumpFirst_eq_none (now : Int) (path : String) :
    ∀ (l : List PathEntry), path ∉ l.map PathEntry.path →
      bumpFirst now path l = none := by
  intro l
  induction l with
  | nil => intro _; rfl
  | cons e rest ih =>
      intro h
      simp only [List.map_cons, List.mem_cons] at h
      push_neg at h
      unfold bumpFirst
      rw [if_neg (fun he => h.1 he.symm), ih h.2]
      rfl

theorem bumpFirst_append (now : Int) (path : String) (e : PathEntry)
    (he : e.path = path) :
    ∀ (pre : List PathEntry), path ∉ pre.map PathEntry.path →
      ∀ (post : List PathEntry),
      bumpFirst now path (pre ++ e :: post) =
        some (pre ++
          { e with score := e.score + 1, last_accessed := now } :: post) := by
  intro pre
  induction pre with
  | nil =>
      intro _ post
      rw [List.nil_append, List.nil_append]
      unfold bumpFirst
      rw [if_pos he]
  | cons q rest ih =>
      intro h post
      simp only [List.map_cons, List.mem_cons] at h
      push_neg at h
      rw [List.cons_append]
      unfold bumpFirst
      rw [if_neg (fun hq => h.1 hq.symm), ih h.2 post]
      rfl

/-- The partition contract fully determines the output on a two-element
input with distinct scores and pivot index 1. -/
theorem sel_pair_forced (sel : List (ℚ × Nat) → Nat → List (ℚ × Nat))
    (hsel : SelSpec sel) (a b : ℚ × Nat) (hab : b.1 < a.1) :
    sel [a, b] 1 = [a, b] := by
  have hperm := hsel.perm [a, b] 1
  have hlen : (sel [a, b] 1).length = 2 := by rw [hperm.length_eq]; rfl
  obtain ⟨piv, rest, hdrop, hbefore, _⟩ := hsel.part [a, b] 1 (by simp)
  rcases hl : sel [a, b] 1 with _ | ⟨x, xs⟩
  · rw [hl] at hlen; simp at hlen
  rcases xs with _ | ⟨y, ys⟩
  · rw [hl] at hlen; simp at hlen
  rcases ys with _ | ⟨z, zs⟩
  · rw [hl] at hperm hdrop hbefore
    simp only [List.drop_succ_cons, List.drop_zero] at hdrop
    have hpiv : piv = y := by
      have := congrArg (fun l => l.headD piv) hdrop
      simpa using this.symm
    have hyx : y.1 ≤ x.1 := by
      have := hbefore x (by simp)
      rw [hpiv] at this
      exact this
    have hx : x = a ∨ x = b := by
      have : x ∈ [a, b] := hperm.subset (by simp)
      simpa using this
    rcases hx with hx | hx
    · subst hx
      have : [y].Perm [b] := hperm.cons_inv
      have hy : y = b := by simpa [List.perm_singleton] using this
      rw [hy]
    · have ha : a = x ∨ a = y := by
        have : a ∈ [x, y] := hperm.symm.subset (by simp)
        simpa using this
      rcases ha with ha | ha
      · rw [hx] at ha
        rw [ha] at hab
        exact absurd hab (lt_irrefl _)
      · rw [hx, ← ha] at hyx
        exact absurd hab (not_lt.mpr hyx)
  · rw [hl] at hlen; simp at hlen

/-- The frecency scenario model: one non-empty profile, selected, with no
recorded paths yet. -/
def c8M : BrowserModel := { BrowserModel.new with profiles := ["p"] }

/-- Claim C8 (amended): recording a navigation bumps the first matching
entry's score by 1 and stamps it with the current time, and appends a
fresh score-1 entry when the path is absent (stated below the 500-entry
trim); and in the three-navigation scenario (`s3://x/a/`, `s3://x/b/`,
`s3://x/a/` within one minute, so the sub-hour weight 4 applies) every
selection procedure meeting the `select_nth_unstable_by` contract makes
`top_frecent_paths 2` return `["s3://x/a/", "s3://x/b/"]`.  (Amendment:
the general output is only the top-`count` selection with the pivot in
sorted position — the contract does not make the whole list "sorted in
descending order".) -/
theorem c8_frecency_record_and_top
    (sel : List (ℚ × Nat) → Nat → List (ℚ × Nat)) (hsel : SelSpec sel)
    (m1 : BrowserModel) (path1 : String) (now1 : Int) (pn1 : String)
    (h1prof : selectedProfileName? m1 = some pn1) (h1pn : pn1 ≠ "")
    (h1path : path1 ≠ "" ∧ path1 ≠ "s3://")
    (h1absent : path1 ∉
      ((mapFind? m1.frecent_paths pn1).getD []).map PathEntry.path)
    (h1len : ((mapFind? m1.frecent_paths pn1).getD []).length ≤ 499)
    (m2 : BrowserModel) (path2 : String) (now2 : Int) (pn2 : String)
    (pre post : List PathEntry) (e : PathEntry)
    (h2prof : selectedProfileName? m2 = some pn2) (h2pn : pn2 ≠ "")
    (h2path : path2 ≠ "" ∧ path2 ≠ "s3://")
    (h2split : (mapFind? m2.frecent_paths pn2).getD [] = pre ++ e :: post)
    (h2pre : path2 ∉ pre.map PathEntry.path) (h2e : e.path = path2)
    (h2len : (pre ++ e :: post).length ≤ 500)
    (t now3 : Int) (hage : now3 - t ≤ 60) :
    mapFind? (record_recent_path m1 path1 now1).frecent_paths pn1 =
        some (((mapFind? m1.frecent_paths pn1).getD []) ++
          [⟨path1, 1, now1⟩]) ∧
      mapFind? (record_recent_path m2 path2 now2).frecent_paths pn2 =
        some (pre ++
          { e with score := e.score + 1, last_accessed := now2 } :: post) ∧
      top_frecent_paths (record_recent_path (record_recent_path
          (record_recent_path c8M "s3://x/a/" t) "s3://x/b/" t)
          "s3://x/a/" t) sel 2 now3 = ["s3://x/a/", "s3://x/b/"] := by
  refine ⟨?_, ?_, ?_⟩
  · have hcond : ¬ (path1 = "" ∨ path1 = "s3://") := by
      intro h
      rcases h with h | h
      · exact h1path.1 h
      · exact h1path.2 h
    unfold record_recent_path
    rw [if_neg hcond, h1prof]
    dsimp only
    rw [if_neg h1pn]
    dsimp only
    rw [bumpFirst_eq_none now1 path1 _ h1absent]
    dsimp only
    rw [if_neg (by simp only [List.length_append, List.length_cons,
      List.length_nil]; omega)]
    exact mapFind?_mapInsert_self _ _ _
  · have hcond : ¬ (path2 = "" ∨ path2 = "s3://") := by
      intro h
      rcases h with h | h
      · exact h2path.1 h
      · exact h2path.2 h
    unfold record_recent_path
    rw [if_neg hcond, h2prof]
    dsimp only
    rw [if_neg h2pn]
    dsimp only
    rw [h2split, bumpFirst_append now2 path2 e h2e pre h2pre post]
    dsimp only
    simp only [List.length_append, List.length_cons] at h2len
    rw [if_neg (by simp only [List.length_append, List.length_cons]; omega)]
    exact mapFind?_mapInsert_self _ _ _
  · have hm : record_recent_path (record_recent_path
        (record_recent_path c8M "s3://x/a/" t) "s3://x/b/" t)
        "s3://x/a/" t =
        { c8M with frecent_paths :=
            [("p", [⟨"s3://x/a/", 1 + 1, t⟩, ⟨"s3://x/b/", 1, t⟩])] } := by
      rfl
    rw [hm]
    have h3600 : now3 - t < 3600 := by omega
    have hsel2 := sel_pair_forced sel hsel (8, 0) (4, 1) (by norm_num)
    have hscored : (([⟨"s3://x/a/", 1 + 1, t⟩,
          ⟨"s3://x/b/", 1, t⟩] : List PathEntry)).enum.map
        (fun p => (frecency_score p.2 now3, p.1)) = [(8, 0), (4, 1)] := by
      show [(frecency_score ⟨"s3://x/a/", 1 + 1, t⟩ now3, 0),
        (frecency_score ⟨"s3://x/b/", 1, t⟩ now3, 1)] = [(8, 0), (4, 1)]
      norm_num [frecency_score, h3600]
    show ((sel ((([⟨"s3://x/a/", 1 + 1, t⟩,
          ⟨"s3://x/b/", 1, t⟩] : List PathEntry)).enum.map
          (fun p => (frecency_score p.2 now3, p.1))) 1).take 2).map
        (fun p => ((([⟨"s3://x/a/", 1 + 1, t⟩,
          ⟨"s3://x/b/", 1, t⟩] : List PathEntry)).getD p.2 ⟨"", 0, 0⟩).path) =
      ["s3://x/a/", "s3://x/b/"]
    rw [hscored, hsel2]
    rfl

/-- A model with one recorded path, for the bump case of the witness. -/
def c8M2 : BrowserModel :=
  { c8M with frecent_paths := [("p", [⟨"s3://q/", 1, 0⟩])] }

/-- C8 witness: a fresh path is created with score 1, an existing one is
bumped to score 2, and the three-navigation scenario run with the
contract-satisfying selection `sel₀`. -/
theorem c8_frecency_record_and_top_witness :
    mapFind? (record_recent_path c8M "s3://q/" 5).frecent_paths "p" =
        some (((mapFind? c8M.frecent_paths "p").getD []) ++
          [⟨"s3://q/", 1, 5⟩]) ∧
      mapFind? (record_recent_path c8M2 "s3://q/" 7).frecent_paths "p" =
        some [(⟨"s3://q/", 1 + 1, 7⟩ : PathEntry)] ∧
      top_frecent_paths (record_recent_path (record_recent_path
          (record_recent_path c8M "s3://x/a/" 0) "s3://x/b/" 0)
          "s3://x/a/" 0) sel₀ 2 30 = ["s3://x/a/", "s3://x/b/"] :=
  c8_frecency_record_and_top sel₀ selSpec_sel₀
    c8M "s3://q/" 5 "p" rfl (by decide) ⟨by decide, by decide⟩ (by decide)
    (by decide)
    c8M2 "s3://q/" 7 "p" [] [] ⟨"s3://q/", 1, 0⟩ rfl (by decide)
    ⟨by decide, by decide⟩ (by decide) (by decide) (by decide) (by decide)
    0 30 (by decide)

/-- The entries of the C8 counterexample: three paths recorded at the
same instant with scores 5, 9, 7. -/
def c8Entries : List PathEntry := [⟨"a", 5, 0⟩, ⟨"b", 9, 0⟩, ⟨"c", 7, 0⟩]

def c8CM : BrowserModel :=
  { BrowserModel.new with
    profiles := ["p"]
    frecent_paths := [("p", c8Entries)] }

/-- The frecency score of the entry recorded under `pth`. -/
def scoreOfPath (entries : List PathEntry) (now : Int) (pth : String) : ℚ :=
  frecency_score ((entries.find? (fun q => q.path == pth)).getD ⟨"", 0, 0⟩) now

/-- Claim C8 counterexample: `sel₀` satisfies the partition contract of
`select_nth_unstable_by`, yet `top_frecent_paths 3` returns the top
paths with frecency scores `[28, 36, 20]` — not in descending order, so
the code does not guarantee the claimed sortedness. -/
theorem c8_counterexample :
    SelSpec sel₀ ∧
      top_frecent_paths c8CM sel₀ 3 0 = ["c", "b", "a"] ∧
      ¬ List.Sorted (fun a b : ℚ => b ≤ a)
        ((top_frecent_paths c8CM sel₀ 3 0).map (scoreOfPath c8Entries 0)) := by
  have hscored : c8Entries.enum.map
      (fun p => (frecency_score p.2 0, p.1)) = [(20, 0), (36, 1), (28, 2)] := by
    show [(frecency_score ⟨"a", 5, 0⟩ 0, 0), (frecency_score ⟨"b", 9, 0⟩ 0, 1),
      (frecency_score ⟨"c", 7, 0⟩ 0, 2)] = [(20, 0), (36, 1), (28, 2)]
    norm_num [frecency_score]
  have h1 : top_frecent_paths c8CM sel₀ 3 0 = ["c", "b", "a"] := by
    show ((sel₀ (c8Entries.enum.map
        (fun p => (frecency_score p.2 0, p.1))) 2).take 3).map
      (fun p => (c8Entries.getD p.2 ⟨"", 0, 0⟩).path) = ["c", "b", "a"]
    rw [hscored]
    decide
  have h2 : (["c", "b", "a"].map (scoreOfPath c8Entries 0)) =
      [28, 36, 20] := by
    show [frecency_score ⟨"c", 7, 0⟩ 0, frecency_score ⟨"b", 9, 0⟩ 0,
      frecency_score ⟨"a", 5, 0⟩ 0] = [28, 36, 20]
    norm_num [frecency_score]
  refine ⟨selSpec_sel₀, h1, ?_⟩
  rw [h1, h2]
  decide

set_option maxRecDepth 100000 in
/-- Claim C5 counterexample: a continuation page that repeats a key
internally is appended with only the pre-event keys filtered out, so the
repeated key ends up in the node's objects twice — refuting "each key
occurs exactly once". -/
theorem c5_counterexample :
    ((nodeObjects (applyPages BrowserModel.new "b" ""
        [⟨"", [⟨"a", "a", 1, "", false⟩], "T", true⟩,
         ⟨"T", [⟨"x", "x", 1, "", false⟩, ⟨"x", "x", 2, "", false⟩],
           "", false⟩]) "b" "").map S3Object.key).count "x" = 2 := by
  decide

end S6ui
